import Mathlib

/-!
# Verification of the xmlquery streaming XML parser

A shallow embedding of the antchfx/xmlquery tree model, token-driven parser,
stream filter state machine, MIME gate and selector cache, with theorems
settling the frozen claims about the natural-language specification.

The mutable pointer-linked `Node` graph of the Go code is embedded as a heap:
a list of node records addressed by allocation index, with parent / child /
sibling pointers as `Option Nat`.  The external XML tokenizer
(`encoding/xml`) is abstracted as a list of typed tokens, each carrying the
raw bytes that the byte lookahead cache would have captured while the token
was fetched.  Compiled XPath expressions (the external query evaluator) are
abstracted as Boolean predicates over the heap.
-/

namespace Xmlquery

/-- Node kinds, from `NodeType` in the tree node model
(src/unnamed/part_004 lines 16-36).  `notationNode` (for directives) and
`processingInstruction` are the two additional kinds used by the current
parser (src/unnamed/part_003 lines 336-374); their declarations live in the
node model file of the same revision, which is not among the sources, and
are listed in spec section 3 ("Directive/Notation",
"ProcessingInstruction"). -/
inductive NodeType where
  | documentNode
  | declarationNode
  | elementNode
  | textNode
  | charDataNode
  | commentNode
  | attributeNode
  | notationNode
  | processingInstruction
deriving DecidableEq, Repr, Inhabited

/-- An attribute: `xml.Name` (Space, Local) flattened together with the
`Value` and `NamespaceURI` fields of the current revision's `Attr`. -/
structure Attr where
  nameSpace : String := ""
  nameLocal : String := ""
  value : String := ""
  namespaceURI : String := ""
deriving DecidableEq, Repr, Inhabited

/-- Payload of a non-xml processing instruction (`ProcInstData`,
src/unnamed/part_003 line 350). -/
structure ProcInstData where
  target : String
  inst : String
deriving DecidableEq, Repr, Inhabited

/-- A tree node.  Pointer fields of the Go `Node`
(src/unnamed/part_004 lines 40-50) become heap indices (`Option Nat`).
The Go `Prefix` field is called `pfx` here.  `level` is the Go `int`
nesting level. -/
structure XNode where
  parent : Option Nat := none
  firstChild : Option Nat := none
  lastChild : Option Nat := none
  prevSibling : Option Nat := none
  nextSibling : Option Nat := none
  type : NodeType := NodeType.documentNode
  data : String := ""
  pfx : String := ""
  namespaceURI : String := ""
  attr : List Attr := []
  procData : Option ProcInstData := none
  level : Int := 0
deriving DecidableEq, Repr, Inhabited

/-- The node heap: node `i` of the graph is entry `i` of the list.
Node 0 is always the document root. -/
abbrev Heap := List XNode

/-- Read node `i` (Go pointer dereference); total via a default node. -/
def getN (h : Heap) (i : Nat) : XNode :=
  match h, i with
  | [], _ => default
  | x :: _, 0 => x
  | _ :: xs, i + 1 => getN xs i

/-- Write node `i`; out-of-range writes are dropped (they correspond to
dereferences of dangling pointers, which do not occur on well-formed heaps). -/
def setN (h : Heap) (i : Nat) (v : XNode) : Heap :=
  match h, i with
  | [], _ => []
  | _ :: xs, 0 => v :: xs
  | x :: xs, i + 1 => x :: setN xs i v

/-- Field update on node `i` (a Go statement `n.F = e`). -/
def updN (h : Heap) (i : Nat) (f : XNode → XNode) : Heap :=
  setN h i (f (getN h i))

/-- Field update through an optional pointer; on the Go side the pointer is
non-nil on every path that executes the statement. -/
def updOpt (h : Heap) (oi : Option Nat) (f : XNode → XNode) : Heap :=
  match oi with
  | none => h
  | some i => updN h i f

/-! ### Character-list string primitives

Go's byte-string operations (`strings.HasPrefix`, `strings.Split`,
`strings.Trim*`, slicing) are modelled by structurally recursive functions
over the character list of a `String`; byte positions coincide with
character positions on the ASCII data handled here. -/

/-- Go `unicode.IsSpace` restricted to ASCII. -/
def goIsSpace (c : Char) : Bool :=
  c == ' ' || c == '\t' || c == '\n' || c == '\x0d' || c == '\x0b' || c == '\x0c'

/-- `strings.Trim(s, cutset)`: remove leading and trailing characters
satisfying `p`. -/
def trimChars (p : Char → Bool) (s : String) : String :=
  String.mk (((s.toList.dropWhile p).reverse.dropWhile p).reverse)

/-- `strings.TrimSpace`. -/
def trimSpace (s : String) : String := trimChars goIsSpace s

/-- The byte-slice prefix `s[:n]`. -/
def strTake (s : String) (n : Nat) : String := String.mk (s.toList.take n)

/-- `strings.HasPrefix(s, p)` / `bytes.HasPrefix`. -/
def strIsPrefix (p s : String) : Bool := p.toList.isPrefixOf s.toList

def splitOnCharAux (c : Char) : List Char → List Char → List String
  | [], acc => [String.mk acc.reverse]
  | x :: xs, acc =>
    if x == c then String.mk acc.reverse :: splitOnCharAux c xs []
    else splitOnCharAux c xs (x :: acc)

/-- `strings.Split(s, sep)` for a one-character separator. -/
def splitOnChar (c : Char) (s : String) : List String :=
  splitOnCharAux c s.toList []

/-- `AddChild(parent, n)` — attach-as-last-child
(src/unnamed/part_004 lines 167-177; the exported `AddChild` called by the
current parser has the same body). -/
def addChild (h : Heap) (par n : Nat) : Heap :=
  let h := updN h n (fun x => { x with parent := some par })
  let h :=
    if (getN h par).firstChild = none then
      updN h par (fun x => { x with firstChild := some n })
    else
      let pl := (getN h par).lastChild
      let h := updOpt h pl (fun x => { x with nextSibling := some n })
      updN h n (fun x => { x with prevSibling := pl })
  updN h par (fun x => { x with lastChild := some n })

/-- Walk to the true last node of a `nextSibling` chain (the `for` loop at
the head of `addSibling`); fuelled, with the heap size as an upper bound on
the length of any acyclic chain. -/
def lastSibAux (h : Heap) : Nat → Nat → Nat
  | _, 0 => 0
  | i, Nat.succ fuel =>
    match (getN h i).nextSibling with
    | none => i
    | some j => lastSibAux h j fuel

def lastSib (h : Heap) (i : Nat) : Nat := lastSibAux h i (h.length + 1)

/-- `AddSibling(sibling, n)` — attach-as-next-sibling after walking to the
end of the chain (src/unnamed/part_004 lines 179-189). -/
def addSibling (h : Heap) (sib n : Nat) : Heap :=
  let s := lastSib h sib
  let sp := (getN h s).parent
  let h := updN h n (fun x => { x with parent := sp })
  let h := updN h s (fun x => { x with nextSibling := some n })
  let h := updN h n (fun x => { x with prevSibling := some s })
  match sp with
  | none => h
  | some p => updN h p (fun x => { x with lastChild := some n })

/-- `remove(n)` / `RemoveFromTree(n)` — detach a node and its subtree
(src/unnamed/part_004 lines 191-217).  The no-parent case returns the heap
untouched.  Neighbour pointers are read up front; on heaps where the node,
its parent and its two neighbours are pairwise distinct this coincides with
the Go statement order. -/
def removeNode (h : Heap) (n : Nat) : Heap :=
  match (getN h n).parent with
  | none => h
  | some p =>
    let np := (getN h n).prevSibling
    let nn := (getN h n).nextSibling
    let h :=
      if (getN h p).firstChild = some n then
        if (getN h p).lastChild = some n then
          updN h p (fun x => { x with firstChild := none, lastChild := none })
        else
          let h := updN h p (fun x => { x with firstChild := nn })
          updOpt h nn (fun x => { x with prevSibling := none })
      else
        if (getN h p).lastChild = some n then
          let h := updN h p (fun x => { x with lastChild := np })
          updOpt h np (fun x => { x with nextSibling := none })
        else
          let h := updOpt h np (fun x => { x with nextSibling := nn })
          updOpt h nn (fun x => { x with prevSibling := np })
    updN h n (fun x => { x with parent := none, prevSibling := none, nextSibling := none })

/-! ## Navigation and serialization helpers -/

/-- Materialize a `nextSibling` chain starting at an optional pointer, with
fuel (the heap size bounds any acyclic chain). -/
def chainFrom (h : Heap) : Option Nat → Nat → List Nat
  | none, _ => []
  | some _, 0 => []
  | some i, Nat.succ fuel => i :: chainFrom h (getN h i).nextSibling fuel

/-- The child list of node `i` (the loops
`for child := n.FirstChild; child != nil; child = child.NextSibling`). -/
def childList (h : Heap) (i : Nat) : List Nat :=
  chainFrom h (getN h i).firstChild (h.length + 1)

/-- `(*Node).SelectAttr(name)` — Modelled from the spec: the attribute
value lookup used by the space-preservation check (spec section 6:
"per-node space-preservation flag inherited from an ancestor's explicit
preserve/default override").  The function lives in the query helpers file,
which is not among the sources; only its caller `calculatePreserveSpaces`
is.  A qualified name `space:local` is split on the colon and matched
against the attribute's Space/Local pair; an unqualified name matches an
attribute with empty Space. -/
def selectAttr (n : XNode) (name : String) : String :=
  let parts := splitOnChar ':' name
  let sp := if parts.length ≥ 2 then parts.headD "" else ""
  let loc := if parts.length ≥ 2 then (parts.drop 1).headD "" else name
  match n.attr.find? (fun a => a.nameSpace == sp && a.nameLocal == loc) with
  | some a => a.value
  | none => ""

/-- `calculatePreserveSpaces` (src/unnamed/part_004 lines 79-86). -/
def calculatePreserveSpaces (n : XNode) (pastValue : Bool) : Bool :=
  let a := selectAttr n "xml:space"
  if a == "preserve" then true
  else if a == "default" then false
  else pastValue

def isNL_TAB (c : Char) : Bool := c == '\n' || c == '\t'

/-- `(*Node).sanitizedData` (src/unnamed/part_004 lines 72-77). -/
def sanitizedData (n : XNode) (preserveSpaces : Bool) : String :=
  if preserveSpaces then trimChars isNL_TAB n.data
  else trimSpace n.data

/-- `xml.EscapeText` of the standard library (an external collaborator),
restricted to its escaping table; its handling of invalid UTF-8 is not
modelled (all inputs in this development are plain ASCII). -/
def escapeChar (c : Char) : String :=
  if c == '"' then "&#34;"
  else if c == '\'' then "&#39;"
  else if c == '&' then "&amp;"
  else if c == '<' then "&lt;"
  else if c == '>' then "&gt;"
  else if c == '\t' then "&#x9;"
  else if c == '\n' then "&#xA;"
  else if c == '\x0d' then "&#xD;"
  else String.singleton c

def escapeText (s : String) : String :=
  s.toList.foldl (fun acc c => acc ++ escapeChar c) ""

/-- `(*Node).InnerText` (src/unnamed/part_004 lines 53-70): concatenate
Text/CharData content, skip comments, recurse through everything else.
Fuelled on tree depth. -/
def innerTextAux (h : Heap) : Nat → Nat → String
  | _, 0 => ""
  | i, Nat.succ fuel =>
    match (getN h i).type with
    | NodeType.textNode => (getN h i).data
    | NodeType.charDataNode => (getN h i).data
    | NodeType.commentNode => ""
    | _ => (childList h i).foldl (fun acc c => acc ++ innerTextAux h c fuel) ""

def innerText (h : Heap) (i : Nat) : String := innerTextAux h i (h.length + 1)

/-- `outputXML(buf, n, preserveSpaces)`
(src/unnamed/part_004 lines 88-134), fuelled on tree depth. -/
def outputXMLAux (h : Heap) : Nat → Nat → Bool → String
  | _, 0, _ => ""
  | i, Nat.succ fuel, ps0 =>
    let n := getN h i
    let ps := calculatePreserveSpaces n ps0
    match n.type with
    | NodeType.textNode => escapeText (sanitizedData n ps)
    | NodeType.charDataNode => escapeText (sanitizedData n ps)
    | NodeType.commentNode => "<!--" ++ n.data ++ "-->"
    | _ =>
      let head :=
        if n.type == NodeType.declarationNode then "<?" ++ n.data
        else if n.pfx == "" then "<" ++ n.data
        else "<" ++ n.pfx ++ ":" ++ n.data
      let attrsStr := n.attr.foldl (fun acc a =>
        acc ++
          (if a.nameSpace != "" then " " ++ a.nameSpace ++ ":" ++ a.nameLocal ++ "="
           else " " ++ a.nameLocal ++ "=")
          ++ "\"" ++ escapeText a.value ++ "\"") ""
      let openEnd := if n.type == NodeType.declarationNode then "?>" else ">"
      let kids := (childList h i).foldl
        (fun acc c => acc ++ outputXMLAux h c fuel ps) ""
      let tail :=
        if n.type == NodeType.declarationNode then ""
        else if n.pfx == "" then "</" ++ n.data ++ ">"
        else "</" ++ n.pfx ++ ":" ++ n.data ++ ">"
      head ++ attrsStr ++ openEnd ++ kids ++ tail

/-- `(*Node).OutputXML(self)` (src/unnamed/part_004 lines 137-148). -/
def outputXML (h : Heap) (i : Nat) (self : Bool) : String :=
  if self then outputXMLAux h i (h.length + 1) false
  else (childList h i).foldl (fun acc c => acc ++ outputXMLAux h c (h.length + 1) false) ""

/-! ## The tree-building parser (src/unnamed/part_003)

The external `encoding/xml` tokenizer is abstracted as a list of typed
tokens; end-of-input of the list is `io.EOF`.  Each token carries the raw
byte string the byte lookahead cache captured while the tokenizer fetched
it (`p.reader.StartCaching()` … `StopCaching()` around `decoder.Token()`).
Compiled XPath expressions and `QuerySelector` (the external query
evaluator) are abstracted as Boolean predicates over the heap rooted at
node 0. -/

/-- `xmlnsPrefix` (src/unnamed/part_003 lines 121-124). -/
structure XmlnsPrefix where
  name : String
  level : Int
deriving DecidableEq, Repr, Inhabited

/-- The namespace scope table `space2prefix map[string]*xmlnsPrefix`,
as an association list with unique keys. -/
abbrev NSMap := List (String × XmlnsPrefix)

def lookupNS : NSMap → String → Option XmlnsPrefix
  | [], _ => none
  | (k, v) :: rest, key => if k = key then some v else lookupNS rest key

/-- Go map assignment `m[k] = v` (overwrite in place, insert when new). -/
def insertNS : NSMap → String → XmlnsPrefix → NSMap
  | [], k, v => [(k, v)]
  | (k', v') :: rest, k, v =>
    if k' = k then (k, v) :: rest else (k', v') :: insertNS rest k v

/-- An `xml.Attr` on a start tag, before namespace resolution. -/
structure TokAttr where
  space : String := ""
  localName : String := ""
  value : String := ""
deriving DecidableEq, Repr, Inhabited

/-- A token of the external tokenizer, each paired with the raw bytes the
lookahead cache captured during its fetch (only start-element and
char-data tokens consult the cache). -/
inductive Tok where
  | startElement (space localName : String) (attrs : List TokAttr) (cache : String)
  | endElement
  | charData (data : String) (cache : String)
  | comment (data : String)
  | procInst (target inst : String)
  | directive (data : String)
deriving DecidableEq, Repr, Inhabited

/-- Parser state (the mutable fields of `parser`,
src/unnamed/part_003 lines 105-119).  The decoder's strict flag and the
two compiled stream expressions are passed as parameters to the step
functions instead of being stored, mirroring that they never change after
construction. -/
structure PState where
  heap : Heap
  level : Int
  prev : Nat
  space2pfx : NSMap
  streamNode : Option Nat
  streamNodePrev : Option Nat
deriving DecidableEq, Repr, Inhabited

/-- Modelled from the spec: `cachedReader.CacheWithLimit(n)` of the byte
lookahead cache returns the captured bytes truncated to the given limit
(spec section 4.1: "get-cache (returns captured bytes since last start,
truncated by cache capacity)").  Only its callers are among the sources.
Byte positions coincide with character positions on the ASCII inputs used
here. -/
def cacheWithLimit (cache : String) (n : Nat) : String := strTake cache n

/-- `bytes.ToUpper` restricted to ASCII (all cache contents consulted by
the parser are ASCII markup). -/
def asciiUpper (s : String) : String := String.mk (s.toList.map Char.toUpper)

/-- The CharData classification (src/unnamed/part_003 lines 306-312): a
CharData (CDATA) node exactly when the first nine captured bytes,
uppercased, begin with a literal CDATA opening marker with or without the
leading angle bracket. -/
def classifyCharData (cache : String) : NodeType :=
  let cached := asciiUpper (cacheWithLimit cache 9)
  if strIsPrefix "<![CDATA[" cached || strIsPrefix "![CDATA[" cached then
    NodeType.charDataNode
  else NodeType.textNode

/-- The missing-declaration synthesis (src/unnamed/part_003 lines 178-193):
on a start tag at level 0, append a Declaration node `xml` with a
`version="1.0"` attribute at level 1 as a child of the cursor, set the
level to 1 and move the cursor onto it. -/
def synthDecl (s : PState) : PState :=
  if s.level == 0 then
    let nid := s.heap.length
    let node : XNode :=
      { type := NodeType.declarationNode, data := "xml",
        attr := [{ nameLocal := "version", value := "1.0" }], level := 1 }
    let h := addChild (s.heap ++ [node]) s.prev nid
    { s with heap := h, level := 1, prev := nid }
  else s

/-- One namespace-declaration attribute (src/unnamed/part_003
lines 195-205): an attribute with local name exactly `xmlns` resets the
default binding for its URI when the URI is unbound or the recorded level
of the existing binding is `>=` the current level; an `xmlns:p` attribute
always (re)binds the URI to prefix `p` at the current level. -/
def nsDeclStep (lvl : Int) (m : NSMap) (a : TokAttr) : NSMap :=
  if a.localName = "xmlns" then
    match lookupNS m a.value with
    | none => insertNS m a.value ⟨"", lvl⟩
    | some pfx =>
      if pfx.level ≥ lvl then insertNS m a.value ⟨"", lvl⟩ else m
  else if a.space = "xmlns" then insertNS m a.value ⟨a.localName, lvl⟩
  else m

def processNSAttrs (lvl : Int) (m : NSMap) (attrs : List TokAttr) : NSMap :=
  attrs.foldl (nsDeclStep lvl) m

/-- The dedent walk of the depth-relative attach rule
(`for i := p.prev.level - p.level; i > 1; i--  p.prev = p.prev.Parent`);
a nil parent cannot occur on level-consistent trees. -/
def walkUp (h : Heap) : Nat → Nat → Nat
  | i, 0 => i
  | i, Nat.succ k =>
    match (getN h i).parent with
    | some p2 => walkUp h p2 k
    | none => i

/-- The shared depth-relative attach rule (e.g. src/unnamed/part_003
lines 235-244): same level ⇒ next sibling of the cursor; deeper ⇒ child of
the cursor; shallower ⇒ walk the cursor up `diff - 1` parents (mutating
the cursor) and attach as a sibling of the walked cursor's parent.
Returns the heap and the (possibly walked) cursor. -/
def attachByLevel (h : Heap) (prev : Nat) (lvl : Int) (nid : Nat) : Heap × Nat :=
  let plv := (getN h prev).level
  if lvl == plv then (addSibling h prev nid, prev)
  else if lvl > plv then (addChild h prev nid, prev)
  else
    let prev2 := walkUp h prev (plv - lvl - 1).toNat
    match (getN h prev2).parent with
    | some q => (addSibling h q nid, prev2)
    | none => (h, prev2)

/-- Outcome of one token step. -/
inductive StepOut where
  | cont (s : PState) (cnt : Nat)
  | yield (n : Nat) (s : PState)
  | err (e : String)
deriving Repr

/-- The `xml.StartElement` case (src/unnamed/part_003 lines 177-270).
`tgt` is the compiled `streamElementXPath` (as a heap predicate), `cnt`
the local `streamElementNodeCounter`. -/
def stepStart (strict : Bool) (tgt : Option (Heap → Bool)) (s : PState)
    (cnt : Nat) (ns localName : String) (attrs : List TokAttr)
    (cache : String) : Except String (PState × Nat) :=
  let s := synthDecl s
  let m := processNSAttrs s.level s.space2pfx attrs
  if ns != "" && (lookupNS m ns).isNone && strict then
    Except.error ("xmlquery: invalid XML document, namespace " ++ ns ++ " is missing")
  else
    let resolved := attrs.map (fun a =>
      let sp := match lookupNS m a.space with
        | some pfx => pfx.name
        | none => a.space
      ({ nameSpace := sp, nameLocal := a.localName, value := a.value,
         namespaceURI := a.space } : Attr))
    let nid := s.heap.length
    let node : XNode :=
      { type := NodeType.elementNode, data := localName, namespaceURI := ns,
        attr := resolved, level := s.level }
    let h := s.heap ++ [node]
    let hp := attachByLevel h s.prev s.level nid
    let h := hp.1
    let prev2 := hp.2
    let h :=
      if ns != "" then
        match lookupNS m ns with
        | some v =>
          let cached := cacheWithLimit cache (v.name.length + localName.length + 2)
          if strIsPrefix (v.name ++ ":" ++ localName) cached
              || strIsPrefix ("<" ++ v.name ++ ":" ++ localName) cached then
            updN h nid (fun x => { x with pfx := v.name })
          else h
        | none => h
      else h
    let sc :=
      match tgt with
      | none => (s.streamNode, s.streamNodePrev, cnt)
      | some f =>
        match s.streamNode with
        | none =>
          if f h then (some nid, some prev2, 1)
          else (none, s.streamNodePrev, cnt)
        | some x => (some x, s.streamNodePrev, cnt + 1)
    Except.ok ({ s with
                  heap := h, space2pfx := m, prev := nid,
                  level := s.level + 1,
                  streamNode := sc.1, streamNodePrev := sc.2.1 }, sc.2.2)

/-- The `xml.EndElement` case (src/unnamed/part_003 lines 271-305).
`flt` is the compiled `streamElementFilter`.  When the candidate's counter
reaches zero the candidate either passes the (optional) filter and is
yielded, or is detached at once, the cursor restored to the saved
pre-candidate node, and parsing continues. -/
def stepEnd (flt : Option (Heap → Bool)) (s : PState) (cnt : Nat) : StepOut :=
  let s := { s with level := s.level - 1 }
  match s.streamNode with
  | none => StepOut.cont s cnt
  | some sn =>
    let cnt := cnt - 1
    if cnt == 0 then
      match flt with
      | none => StepOut.yield sn s
      | some f =>
        if f s.heap then StepOut.yield sn s
        else
          let h := removeNode s.heap sn
          let pr := match s.streamNodePrev with
            | some v => v
            | none => s.prev
          StepOut.cont { s with
                          heap := h, prev := pr,
                          streamNode := none, streamNodePrev := none } cnt
    else StepOut.cont s cnt

/-- The `xml.CharData` case (src/unnamed/part_003 lines 306-323). -/
def stepCharData (s : PState) (data cache : String) : PState :=
  let nt := classifyCharData cache
  let nid := s.heap.length
  let node : XNode := { type := nt, data := data, level := s.level }
  let hp := attachByLevel (s.heap ++ [node]) s.prev s.level nid
  { s with heap := hp.1, prev := hp.2 }

/-- The `xml.Comment` case (src/unnamed/part_003 lines 324-335). -/
def stepComment (s : PState) (data : String) : PState :=
  let nid := s.heap.length
  let node : XNode := { type := NodeType.commentNode, data := data, level := s.level }
  let hp := attachByLevel (s.heap ++ [node]) s.prev s.level nid
  { s with heap := hp.1, prev := hp.2 }

/-- `AddAttr(n, key, val)`: split the key on the first colon (at a positive
index) into prefix and local name and append (src/unnamed/part_004
lines 150-165; the exported `AddAttr` called by the current parser has the
same body). -/
def mkAddAttr (key val : String) : Attr :=
  match (key.toList.indexOf? ':') with
  | some idx =>
    if idx > 0 then
      { nameSpace := String.mk (key.toList.take idx),
        nameLocal := String.mk (key.toList.drop (idx + 1)), value := val }
    else { nameLocal := key, value := val }
  | none => { nameLocal := key, value := val }

def isQuoteChar (c : Char) : Bool := c == '"' || c == '\''

/-- The attribute pairs of a processing instruction body
(src/unnamed/part_003 lines 341-347): split on spaces, trim, and for each
pair with `=` at a positive index add an attribute whose value is stripped
of surrounding quotes. -/
def procInstAttrs (inst : String) : List Attr :=
  (splitOnChar ' ' inst).foldl (fun acc pair =>
    let pair := trimSpace pair
    match pair.toList.indexOf? '=' with
    | some idx =>
      if idx > 0 then
        acc ++ [mkAddAttr (String.mk (pair.toList.take idx))
          (trimChars isQuoteChar (String.mk (pair.toList.drop (idx + 1))))]
      else acc
    | none => acc) []

/-- The `xml.ProcInst` case (src/unnamed/part_003 lines 336-362): the
level advances unless the cursor already is a declaration or processing
instruction; target `xml` gives a Declaration node, anything else a
ProcessingInstruction node carrying its raw payload. -/
def stepProcInst (s : PState) (target inst : String) : PState :=
  let pt := (getN s.heap s.prev).type
  let lvl :=
    if pt == NodeType.declarationNode || pt == NodeType.processingInstruction then
      s.level
    else s.level + 1
  let base : XNode :=
    { type := NodeType.declarationNode, data := target,
      attr := procInstAttrs inst, level := lvl }
  let node :=
    if target != "xml" then
      { base with
         type := NodeType.processingInstruction,
         procData := some ⟨target, trimSpace inst⟩ }
    else base
  let nid := s.heap.length
  let hp := attachByLevel (s.heap ++ [node]) s.prev lvl nid
  { s with heap := hp.1, level := lvl, prev := nid }

/-- The `xml.Directive` case (src/unnamed/part_003 lines 363-374). -/
def stepDirective (s : PState) (data : String) : PState :=
  let nid := s.heap.length
  let node : XNode := { type := NodeType.notationNode, data := data, level := s.level }
  let hp := attachByLevel (s.heap ++ [node]) s.prev s.level nid
  { s with heap := hp.1, prev := hp.2 }

/-- Dispatch over one token (the `switch tok := tok.(type)` of
`parser.parse`). -/
def stepTok (strict : Bool) (tgt flt : Option (Heap → Bool)) (s : PState)
    (cnt : Nat) : Tok → StepOut
  | Tok.startElement ns loc attrs cache =>
    match stepStart strict tgt s cnt ns loc attrs cache with
    | Except.ok sc => StepOut.cont sc.1 sc.2
    | Except.error e => StepOut.err e
  | Tok.endElement => stepEnd flt s cnt
  | Tok.charData d c => StepOut.cont (stepCharData s d c) cnt
  | Tok.comment d => StepOut.cont (stepComment s d) cnt
  | Tok.procInst t i => StepOut.cont (stepProcInst s t i) cnt
  | Tok.directive d => StepOut.cont (stepDirective s d) cnt

/-- Outcome of one call to `parser.parse`: a yielded stream node (with the
unconsumed tokens), a tokenizer/parse error, or end of input (`io.EOF`). -/
inductive POut where
  | yielded (n : Nat) (s : PState) (rest : List Tok)
  | errored (e : String)
  | eof (s : PState)
deriving Repr

/-- The loop of `parser.parse` (src/unnamed/part_003 lines 158-377); the
local `streamElementNodeCounter` starts at 0 on each call. -/
def parseRun (strict : Bool) (tgt flt : Option (Heap → Bool)) :
    PState → List Tok → Nat → POut
  | s, [], _ => POut.eof s
  | s, t :: ts, cnt =>
    match stepTok strict tgt flt s cnt t with
    | StepOut.err e => POut.errored e
    | StepOut.yield n s' => POut.yielded n s' ts
    | StepOut.cont s' cnt' => parseRun strict tgt flt s' ts cnt'

/-- `createParser` (src/unnamed/part_003 lines 126-141) together with the
`once.Do` initialization of the namespace table at the head of the first
`parse` call: document root at node 0, level 0, cursor on the root, the
well-known XML namespace pre-bound to prefix `xml` at level 0. -/
def initState : PState :=
  { heap := [{ type := NodeType.documentNode, level := 0 }],
    level := 0, prev := 0,
    space2pfx := [("http://www.w3.org/XML/1998/namespace", ⟨"xml", 0⟩)],
    streamNode := none, streamNodePrev := none }

/-- The `for err == nil { _, err = p.parse() }` loop of `ParseWithOptions`:
re-enter `parse` (resetting its local counter) until an error or `io.EOF`.
Fuelled; `tokens.length + 1` calls always suffice since every yield
consumes at least one token. -/
def parseAllAux (strict : Bool) (tgt flt : Option (Heap → Bool)) :
    Nat → PState → List Tok → Except String PState
  | 0, s, _ => Except.ok s
  | Nat.succ fuel, s, ts =>
    match parseRun strict tgt flt s ts 0 with
    | POut.errored e => Except.error e
    | POut.eof s' => Except.ok s'
    | POut.yielded _ s' rest => parseAllAux strict tgt flt fuel s' rest

/-- The post-parse validity check of `ParseWithOptions`
(src/unnamed/part_003 lines 70-84): scan the document root and its
sibling chain; the document is valid when some member of that chain has an
Element child. -/
def validDoc (h : Heap) : Bool :=
  (chainFrom h (some 0) (h.length + 1)).any (fun d =>
    (childList h d).any (fun c => (getN h c).type == NodeType.elementNode))

/-- `ParseWithOptions` (src/unnamed/part_003 lines 40-103), at the token
level: run the parse loop to completion; on `io.EOF` apply the validity
check and fail with the document-validity error when no Element was
found.  (Line-number annotation is out of scope.) -/
def parseWithOptionsM (strict : Bool) (ts : List Tok) : Except String PState :=
  match parseAllAux strict none none (ts.length + 1) initState ts with
  | Except.error e => Except.error e
  | Except.ok s =>
    if validDoc s.heap then Except.ok s
    else Except.error "xmlquery: invalid XML document"

/-! ## The stream parser (src/unnamed/part_003 lines 379-494) -/

/-- A `StreamParser` together with the unconsumed part of the token
stream. -/
structure SPState where
  ps : PState
  toks : List Tok
deriving Repr

/-- The sibling-pruning loop at the head of `StreamParser.Read`
(src/unnamed/part_003 lines 485-487): detach every still-attached sibling
preceding the last yielded node.  Fuelled; each removal shortens the
`prevSibling` chain. -/
def pruneSibs (h : Heap) (sn : Nat) : Nat → Heap
  | 0 => h
  | Nat.succ fuel =>
    match (getN h sn).prevSibling with
    | none => h
    | some x => pruneSibs (removeNode h x) sn fuel

/-- The cleanup prologue of `StreamParser.Read`
(src/unnamed/part_003 lines 480-492): when a node was yielded by the
previous read, excise its preceding siblings, restore the cursor to its
parent, detach the node itself and clear the stream bookkeeping. -/
def spPrologue (st : SPState) : SPState :=
  match st.ps.streamNode with
  | none => st
  | some sn =>
    let h := pruneSibs st.ps.heap sn (st.ps.heap.length + 1)
    let pr := match (getN h sn).parent with
      | some p => p
      | none => st.ps.prev
    let h := removeNode h sn
    { st with ps := { st.ps with
        heap := h, prev := pr,
        streamNode := none, streamNodePrev := none } }

/-- Outcome of `StreamParser.Read`: a target node (with the parser ready
for the next read), `io.EOF`, or a parse error. -/
inductive ReadOut where
  | node (n : Nat) (st : SPState)
  | eofR (s : PState)
  | errR (e : String)
deriving Repr

/-- `StreamParser.Read` (src/unnamed/part_003 lines 477-494). -/
def spRead (strict : Bool) (tgt flt : Option (Heap → Bool)) (st : SPState) :
    ReadOut :=
  let st := spPrologue st
  match parseRun strict tgt flt st.ps st.toks 0 with
  | POut.yielded n s rest => ReadOut.node n ⟨s, rest⟩
  | POut.errored e => ReadOut.errR e
  | POut.eof s => ReadOut.eofR s

def readNodeId : ReadOut → Option Nat
  | ReadOut.node n _ => some n
  | _ => none

def readState : ReadOut → SPState
  | ReadOut.node _ st => st
  | ReadOut.eofR s => ⟨s, []⟩
  | ReadOut.errR _ => ⟨initState, []⟩

def isEOFRead : ReadOut → Bool
  | ReadOut.eofR _ => true
  | _ => false

/-! ## Concrete stream predicates

`QuerySelector(p.doc, expr) != nil` for the two compiled expressions used
by the streaming claims, written out as heap predicates: an XPath match of
`/AAA/BBB` holds when the document root has an `AAA` element child with a
`BBB` element child; the filter `/AAA/BBB[. != 'b1']` additionally
requires the `BBB`'s string value to differ from `b1`. -/

def isElemNamed (h : Heap) (i : Nat) (name : String) : Bool :=
  (getN h i).type == NodeType.elementNode && (getN h i).data == name

/-- The target predicate `/AAA/BBB` ("every BBB under AAA"). -/
def tgtAAABBB (h : Heap) : Bool :=
  (childList h 0).any (fun a =>
    isElemNamed h a "AAA" &&
    (childList h a).any (fun b => isElemNamed h b "BBB"))

/-- The filter predicate `/AAA/BBB[. != 'b1']`. -/
def fltNotB1 (h : Heap) : Bool :=
  (childList h 0).any (fun a =>
    isElemNamed h a "AAA" &&
    (childList h a).any (fun b =>
      isElemNamed h b "BBB" && innerText h b != "b1"))

/-- Token stream of `<AAA><BBB>b1</BBB><BBB>b2</BBB></AAA>`, with the byte
strings the lookahead cache captures alongside each token. -/
def toksC1 : List Tok :=
  [Tok.startElement "" "AAA" [] "<AAA>",
   Tok.startElement "" "BBB" [] "<BBB>",
   Tok.charData "b1" "b1<",
   Tok.endElement,
   Tok.startElement "" "BBB" [] "<BBB>",
   Tok.charData "b2" "b2<",
   Tok.endElement,
   Tok.endElement]

def c1Read1 : ReadOut := spRead true (some tgtAAABBB) none ⟨initState, toksC1⟩
def c1St1 : SPState := readState c1Read1
def c1Read2 : ReadOut := spRead true (some tgtAAABBB) none c1St1
def c1St2 : SPState := readState c1Read2
def c1Read3 : ReadOut := spRead true (some tgtAAABBB) none c1St2

/-- Token stream of `<AAA><CCC>c</CCC><BBB>b1</BBB><BBB>b2</BBB></AAA>`. -/
def toksC2 : List Tok :=
  [Tok.startElement "" "AAA" [] "<AAA>",
   Tok.startElement "" "CCC" [] "<CCC>",
   Tok.charData "c" "c<",
   Tok.endElement,
   Tok.startElement "" "BBB" [] "<BBB>",
   Tok.charData "b1" "b1<",
   Tok.endElement,
   Tok.startElement "" "BBB" [] "<BBB>",
   Tok.charData "b2" "b2<",
   Tok.endElement,
   Tok.endElement]

def c2Read1 : ReadOut := spRead true (some tgtAAABBB) (some fltNotB1) ⟨initState, toksC2⟩
def c2St1 : SPState := readState c2Read1

/-- Run the single-call parse loop over a prefix of the tokens and return
the state and counter it continues with (`StepOut.cont` all the way);
used to observe the parser state at the reject transition. -/
def runSteps (strict : Bool) (tgt flt : Option (Heap → Bool)) :
    PState → List Tok → Nat → Option (PState × Nat)
  | s, [], cnt => some (s, cnt)
  | s, t :: ts, cnt =>
    match stepTok strict tgt flt s cnt t with
    | StepOut.cont s' cnt' => runSteps strict tgt flt s' ts cnt'
    | _ => none

/-! ## The content-type gate of `LoadURL`

`xmlMIMERegex = (?i)((application|image|message|model)/((\w|\.|-)+\+?)?|text/)(wb)?xml`
(src/unnamed/part_003 line 18) and its unanchored `MatchString` search
(line 28), modelled over the lowercased character list.  A match exists at
some position when one of the four big families is followed by `/`, an
optional run of word/dot/dash characters with an optional trailing `+`,
an optional `wb`, and `xml` — or when `text/` is followed directly by an
optional `wb` and `xml`. -/

/-- Go regexp `\w`: ASCII word characters. -/
def isWordChar (c : Char) : Bool :=
  ('a' ≤ c && c ≤ 'z') || ('A' ≤ c && c ≤ 'Z') || ('0' ≤ c && c ≤ '9') || c == '_'

def isSubtypeChar (c : Char) : Bool := isWordChar c || c == '.' || c == '-'

/-- The optional group `((\w|\.|-)+\+?)?`: empty, or a non-empty run of
word/dot/dash characters followed by an optional `+` (checked by
enumerating the split point). -/
def subtypeOptOK (l : List Char) : Bool :=
  l.isEmpty ||
  (List.range (l.length + 1)).any (fun k =>
    (!(l.take k).isEmpty && (l.take k).all isSubtypeChar) &&
    ((l.drop k).isEmpty || l.drop k == ['+']))

/-- `(wb)?xml` as a prefix of `cs`. -/
def wbXmlPre (cs : List Char) : Bool :=
  "xml".toList.isPrefixOf cs || "wbxml".toList.isPrefixOf cs

/-- `((\w|\.|-)+\+?)?(wb)?xml` as a prefix of `cs`. -/
def tailMatch (cs : List Char) : Bool :=
  (List.range (cs.length + 1)).any (fun k =>
    subtypeOptOK (cs.take k) && wbXmlPre (cs.drop k))

def bigFamilies : List (List Char) :=
  ["application/".toList, "image/".toList, "message/".toList, "model/".toList]

/-- The whole regex matched at the start of `cs`. -/
def famMatchAt (cs : List Char) : Bool :=
  bigFamilies.any (fun f => f.isPrefixOf cs && tailMatch (cs.drop f.length))
  || ("text/".toList.isPrefixOf cs && wbXmlPre (cs.drop 5))

/-- Unanchored search: try every suffix. -/
def suffixesAny (p : List Char → Bool) : List Char → Bool
  | [] => p []
  | c :: cs => p (c :: cs) || suffixesAny p cs

/-- `xmlMIMERegex.MatchString(contentType)`: case-insensitive unanchored
search. -/
def xmlMIMEMatch (contentType : String) : Bool :=
  suffixesAny famMatchAt (contentType.toList.map Char.toLower)

/-- `LoadURL` after a successful HTTP fetch
(src/unnamed/part_003 lines 21-32): parse the body exactly when the
response's Content-Type passes the MIME regex, otherwise fail with the
invalid-document error carrying the offending content-type. -/
def loadURLM (contentType : String) (body : List Tok) : Except String PState :=
  if xmlMIMEMatch contentType then parseWithOptionsM true body
  else Except.error ("invalid XML document(" ++ contentType ++ ")")

/-- Specification-side reading of the regex group `((\w|\.|-)+\+?)?`:
empty, or a non-empty all-word/dot/dash run followed by nothing or a
single `+`. -/
def SubtypeOpt (l : List Char) : Prop :=
  l = [] ∨ ∃ w t, w ≠ [] ∧ w.all isSubtypeChar = true ∧
    (t = [] ∨ t = ['+']) ∧ l = w ++ t

/-- Specification-side reading of the whole gate: some decomposition of
the lowercased content type exhibits, somewhere inside it, one of the
four big families followed by an optional subtype run and an optional
`wb` and then `xml` — or `text/` followed directly by an optional `wb`
and then `xml`. -/
def XMLFamilyMatch (contentType : String) : Prop :=
  (∃ pre fam sub wb rest,
      fam ∈ bigFamilies ∧ SubtypeOpt sub ∧ (wb = [] ∨ wb = "wb".toList) ∧
      contentType.toList.map Char.toLower
        = pre ++ fam ++ sub ++ wb ++ "xml".toList ++ rest)
  ∨ (∃ pre wb rest,
      (wb = [] ∨ wb = "wb".toList) ∧
      contentType.toList.map Char.toLower
        = pre ++ "text/".toList ++ wb ++ "xml".toList ++ rest)

/-! ## The compiled-selector cache (src/cache.go)

`xpath.CompileWithOptions` is the external XPath compiler; it is a pure
function, abstracted as a parameter.  The groupcache LRU is an external
dependency, modelled from the spec (section 5: "bounded with a simple
least-recently-used eviction discipline") as a most-recently-used-first
association list.  The cache key `expr + fmt.Sprintf("%#v", opts)`
concatenates the expression text with the fixed textual form of the
compile options, here a fixed string parameter `optsRepr`. -/

structure LRUCache (Expr : Type) where
  maxEntries : Nat
  entries : List (String × Expr)

/-- Modelled from the spec: `lru.Cache.Get` — a hit moves the entry to the
front (most recently used). -/
def lruGet {Expr : Type} (c : LRUCache Expr) (k : String) :
    Option Expr × LRUCache Expr :=
  match c.entries.find? (fun kv => kv.1 == k) with
  | some kv =>
    (some kv.2, { c with entries := (k, kv.2) :: c.entries.filter (fun kv2 => kv2.1 != k) })
  | none => (none, c)

/-- Modelled from the spec: `lru.Cache.Add` — insert at the front, evict
the least recently used entry beyond `maxEntries` (0 meaning no limit). -/
def lruAdd {Expr : Type} (c : LRUCache Expr) (k : String) (v : Expr) :
    LRUCache Expr :=
  let entries := (k, v) :: c.entries.filter (fun kv => kv.1 != k)
  let entries :=
    if c.maxEntries != 0 && entries.length > c.maxEntries then entries.dropLast
    else entries
  { c with entries := entries }

/-- `getQuery(expr, opts)` (src/cache.go lines 24-43): bypass and compile
directly when the cache is disabled or the maximum entry count is not
positive; otherwise initialize the process-wide cache on first use, serve
hits, and store only successful compilations.  Returns the result and the
new cache state (`none` = the `cacheOnce` initializer has not run). -/
def getQueryM {Expr : Type} (compile : String → Except String Expr)
    (optsRepr : String) (disable : Bool) (maxEntries : Int)
    (st : Option (LRUCache Expr)) (expr : String) :
    Except String Expr × Option (LRUCache Expr) :=
  let key := expr ++ optsRepr
  if disable || maxEntries ≤ 0 then (compile expr, st)
  else
    let c := match st with
      | some c => c
      | none => ⟨maxEntries.toNat, []⟩
    match lruGet c key with
    | (some v, c2) => (Except.ok v, some c2)
    | (none, c2) =>
      match compile expr with
      | Except.error e => (Except.error e, some c2)
      | Except.ok v => (Except.ok v, some (lruAdd c2 key v))

def entriesOf {Expr : Type} : Option (LRUCache Expr) → List (String × Expr)
  | none => []
  | some c => c.entries

/-- Every cached entry is the successful compilation of the expression its
key was built from. -/
def CacheInv {Expr : Type} (compile : String → Except String Expr)
    (optsRepr : String) (st : Option (LRUCache Expr)) : Prop :=
  ∀ kv ∈ entriesOf st, ∃ e, kv.1 = e ++ optsRepr ∧ compile e = Except.ok kv.2

/-! ## Concrete instances used by the claim theorems -/

def isCont : StepOut → Bool
  | StepOut.cont _ _ => true
  | _ => false

def heapOfD : Except String PState → Heap
  | Except.ok s => s.heap
  | Except.error _ => []

def isOkD : Except String PState → Bool
  | Except.ok _ => true
  | Except.error _ => false

def errOfD : Except String PState → Option String
  | Except.ok _ => none
  | Except.error e => some e

/-- The parser state after the six tokens preceding the first
`EndElement` that closes the rejected `<BBB>b1</BBB>` candidate of the
two-phase filter scenario. -/
def c2RejIn : PState × Nat :=
  match runSteps true (some tgtAAABBB) (some fltNotB1) initState (toksC2.take 6) 0 with
  | some sc => sc
  | none => (initState, 0)

/-- The step outcome of that closing `EndElement`: the reject transition. -/
def c2RejOut : StepOut :=
  stepTok true (some tgtAAABBB) (some fltNotB1) c2RejIn.1 c2RejIn.2 Tok.endElement

def c2RejState : PState :=
  match c2RejOut with
  | StepOut.cont s _ => s
  | _ => initState

/-- The claim-side reading of the CharData classification: the captured
raw bytes, limited to the first nine and inspected case-insensitively,
begin with a literal CDATA opening marker (with or without the leading
angle bracket, depending on whether the previous token fetch already
consumed the `<`). -/
def cdataMarkerTest (cache : String) : Bool :=
  strIsPrefix "<![CDATA[" (asciiUpper (cacheWithLimit cache 9)) ||
  strIsPrefix "![CDATA[" (asciiUpper (cacheWithLimit cache 9))

/-- Full parse of `<a><![CDATA[x]]></a>`: the char-data token's lookahead
cache holds the CDATA section bytes. -/
def c3CDataRun : Except String PState :=
  parseWithOptionsM true
    [Tok.startElement "" "a" [] "<a>",
     Tok.charData "x" "<![CDATA[x]]>",
     Tok.endElement]

/-- Full parse of `<a>x</a>`: the char-data token's lookahead cache holds
the text byte and the following angle bracket. -/
def c3TextRun : Except String PState :=
  parseWithOptionsM true
    [Tok.startElement "" "a" [] "<a>",
     Tok.charData "x" "x<",
     Tok.endElement]

/-- A parser state at level 2 whose namespace table binds URI `U` at the
strictly deeper level 3 (left behind by a deeper declaration that has
since gone out of scope). -/
def c4State : PState :=
  { heap := [{ type := NodeType.documentNode, level := 0 }],
    level := 2, prev := 0,
    space2pfx := [("U", ⟨"p", 3⟩)],
    streamNode := none, streamNodePrev := none }

/-- The binding for `U` after processing a start tag carrying
`xmlns="U"` in that state. -/
def c4After : Option XmlnsPrefix :=
  match stepStart false none c4State 0 "" "e" [{ localName := "xmlns", value := "U" }] "" with
  | Except.ok sc => lookupNS sc.1.space2pfx "U"
  | Except.error _ => none

/-- Tokens of `<myns:child/>`: the first start-element arrives at depth 0
and carries an unbound namespace. -/
def c5FailToks : List Tok := [Tok.startElement "myns" "child" [] ""]

/-- Tokens of `<AAA></AAA>`: no explicit XML declaration. -/
def c5OkToks : List Tok :=
  [Tok.startElement "" "AAA" [] "<AAA>", Tok.endElement]

def c5OkRun : Except String PState := parseWithOptionsM true c5OkToks

/-- The end state of the token-level loop on a document with no element
(a single comment), used to exercise the validity check. -/
def c7Toks : List Tok := [Tok.comment "hi"]

def c7EndState : PState :=
  match parseAllAux true none none (c7Toks.length + 1) initState c7Toks with
  | Except.ok s => s
  | Except.error _ => initState

/-- A concrete external XPath compiler for exercising the selector cache:
`q` compiles to `7`, everything else fails. -/
def c10compile : String → Except String Nat :=
  fun s => if s = "q" then Except.ok 7 else Except.error "compile error"

/-- A concrete well-formed tree for the detach claim: root 0 with
children 1, 2, 3 in order; node 2 itself has one child 4. -/
def c9Heap : Heap :=
  [{ type := NodeType.documentNode, firstChild := some 1, lastChild := some 3 },
   { type := NodeType.elementNode, data := "a", parent := some 0, nextSibling := some 2 },
   { type := NodeType.elementNode, data := "b", parent := some 0,
     prevSibling := some 1, nextSibling := some 3,
     firstChild := some 4, lastChild := some 4 },
   { type := NodeType.elementNode, data := "c", parent := some 0, prevSibling := some 2 },
   { type := NodeType.textNode, data := "t", parent := some 2 }]

/-! ## Heap access lemmas -/

theorem length_setN (h : Heap) (i : Nat) (v : XNode) :
    (setN h i v).length = h.length := by
  induction h generalizing i with
  | nil => cases i <;> rfl
  | cons x xs ih =>
    cases i with
    | zero => rfl
    | succ j => simpa [setN, List.length] using ih j

theorem length_updN (h : Heap) (i : Nat) (f : XNode → XNode) :
    (updN h i f).length = h.length := length_setN h i _

theorem getN_setN_self (h : Heap) (i : Nat) (v : XNode) (hi : i < h.length) :
    getN (setN h i v) i = v := by
  induction h generalizing i with
  | nil => simp at hi
  | cons x xs ih =>
    cases i with
    | zero => rfl
    | succ j =>
      have hj : j < xs.length := Nat.lt_of_succ_lt_succ hi
      simpa [setN, getN] using ih j hj

theorem getN_setN_other (h : Heap) (i j : Nat) (v : XNode) (hij : i ≠ j) :
    getN (setN h i v) j = getN h j := by
  induction h generalizing i j with
  | nil => cases i <;> cases j <;> rfl
  | cons x xs ih =>
    cases i with
    | zero =>
      cases j with
      | zero => exact absurd rfl hij
      | succ _ => rfl
    | succ i' =>
      cases j with
      | zero => rfl
      | succ j' =>
        have : i' ≠ j' := fun hc => hij (by rw [hc])
        simpa [setN, getN] using ih i' j' this

theorem getN_updN_self (h : Heap) (i : Nat) (f : XNode → XNode)
    (hi : i < h.length) : getN (updN h i f) i = f (getN h i) :=
  getN_setN_self h i _ hi

theorem getN_updN_other (h : Heap) (i j : Nat) (f : XNode → XNode)
    (hij : i ≠ j) : getN (updN h i f) j = getN h j :=
  getN_setN_other h i j _ hij

theorem setN_oob (h : Heap) (i : Nat) (v : XNode) (hi : h.length ≤ i) :
    setN h i v = h := by
  induction h generalizing i with
  | nil => cases i <;> rfl
  | cons x xs ih =>
    cases i with
    | zero => simp at hi
    | succ j =>
      have hj : xs.length ≤ j := Nat.le_of_succ_le_succ hi
      simp [setN, ih j hj]

theorem getN_append_lt (h : Heap) (t : Heap) (i : Nat) (hi : i < h.length) :
    getN (h ++ t) i = getN h i := by
  induction h generalizing i with
  | nil => simp at hi
  | cons x xs ih =>
    cases i with
    | zero => rfl
    | succ j =>
      have hj : j < xs.length := Nat.lt_of_succ_lt_succ hi
      simpa [getN] using ih j hj

theorem getN_append_len (h : Heap) (v : XNode) :
    getN (h ++ [v]) h.length = v := by
  induction h with
  | nil => rfl
  | cons x xs ih => simpa [getN] using ih

/-- A field update that does not touch the `type` field leaves every
node's `type` unchanged. -/
theorem getN_type_updN (h : Heap) (j i : Nat) (f : XNode → XNode)
    (hf : ∀ x, (f x).type = x.type) :
    (getN (updN h j f) i).type = (getN h i).type := by
  by_cases hij : j = i
  · subst hij
    by_cases hj : j < h.length
    · rw [getN_updN_self h j f hj, hf]
    · rw [updN, setN_oob h j _ (Nat.le_of_not_lt hj)]
  · rw [getN_updN_other h j i f hij]

theorem getN_type_updOpt (h : Heap) (oj : Option Nat) (i : Nat)
    (f : XNode → XNode) (hf : ∀ x, (f x).type = x.type) :
    (getN (updOpt h oj f) i).type = (getN h i).type := by
  cases oj with
  | none => rfl
  | some j => exact getN_type_updN h j i f hf

theorem getN_type_addChild (h : Heap) (p n i : Nat) :
    (getN (addChild h p n) i).type = (getN h i).type := by
  simp only [addChild]
  split
  · rw [getN_type_updN, getN_type_updN, getN_type_updN]
    all_goals exact fun x => rfl
  · rw [getN_type_updN, getN_type_updN, getN_type_updOpt, getN_type_updN]
    all_goals exact fun x => rfl

theorem getN_type_addSibling (h : Heap) (sib n i : Nat) :
    (getN (addSibling h sib n) i).type = (getN h i).type := by
  simp only [addSibling]
  split
  · rw [getN_type_updN, getN_type_updN, getN_type_updN]
    all_goals exact fun x => rfl
  · rw [getN_type_updN, getN_type_updN, getN_type_updN, getN_type_updN]
    all_goals exact fun x => rfl

theorem getN_type_attachByLevel (h : Heap) (prev : Nat) (lvl : Int)
    (nid i : Nat) :
    (getN (attachByLevel h prev lvl nid).1 i).type = (getN h i).type := by
  simp only [attachByLevel]
  split
  · exact getN_type_addSibling h prev nid i
  · split
    · exact getN_type_addChild h prev nid i
    · split
      · exact getN_type_addSibling h _ nid i
      · rfl

theorem getN_updOpt_other (h : Heap) (o : Option Nat) (i : Nat)
    (f : XNode → XNode) (ho : o ≠ some i) :
    getN (updOpt h o f) i = getN h i := by
  cases o with
  | none => rfl
  | some j => exact getN_updN_other h j i f (fun hc => ho (by rw [hc]))

/-- A field update that does not touch the `parent` field leaves every
node's `parent` unchanged. -/
theorem getN_parent_updN (h : Heap) (j i : Nat) (f : XNode → XNode)
    (hf : ∀ x, (f x).parent = x.parent) :
    (getN (updN h j f) i).parent = (getN h i).parent := by
  by_cases hij : j = i
  · subst hij
    by_cases hj : j < h.length
    · rw [getN_updN_self h j f hj, hf]
    · rw [updN, setN_oob h j _ (Nat.le_of_not_lt hj)]
  · rw [getN_updN_other h j i f hij]

theorem getN_parent_updOpt (h : Heap) (o : Option Nat) (i : Nat)
    (f : XNode → XNode) (hf : ∀ x, (f x).parent = x.parent) :
    (getN (updOpt h o f) i).parent = (getN h i).parent := by
  cases o with
  | none => rfl
  | some j => exact getN_parent_updN h j i f hf

/-- `remove(n)` clears only `n`'s own parent pointer: every other node
keeps its parent, i.e. stays attached to the tree. -/
theorem removeNode_parent_others (h : Heap) (n i : Nat) (hin : i ≠ n) :
    (getN (removeNode h n) i).parent = (getN h i).parent := by
  simp only [removeNode]
  cases hpar : (getN h n).parent with
  | none => rfl
  | some p =>
    rw [getN_updN_other _ _ _ _ (fun hc => hin hc.symm)]
    split
    · split
      · rw [getN_parent_updN]
        exact fun x => rfl
      · rw [getN_parent_updOpt, getN_parent_updN]
        all_goals exact fun x => rfl
    · split
      · rw [getN_parent_updOpt, getN_parent_updN]
        all_goals exact fun x => rfl
      · rw [getN_parent_updOpt, getN_parent_updOpt]
        all_goals exact fun x => rfl

/-- `remove(n)` touches nothing but `n`, `n`'s parent and `n`'s two
sibling neighbours: every other node is left entirely unchanged. -/
theorem removeNode_frame (h : Heap) (n i : Nat) (hin : i ≠ n)
    (hip : (getN h n).parent ≠ some i)
    (hiq : (getN h n).prevSibling ≠ some i)
    (him : (getN h n).nextSibling ≠ some i) :
    getN (removeNode h n) i = getN h i := by
  simp only [removeNode]
  cases hpar : (getN h n).parent with
  | none => rfl
  | some p =>
    have hpi : p ≠ i := fun hc => hip (by rw [hpar, hc])
    rw [getN_updN_other _ _ _ _ (fun hc => hin hc.symm)]
    split
    · split
      · exact getN_updN_other _ _ _ _ hpi
      · rw [getN_updOpt_other _ _ _ _ him, getN_updN_other _ _ _ _ hpi]
    · split
      · rw [getN_updOpt_other _ _ _ _ hiq, getN_updN_other _ _ _ _ hpi]
      · rw [getN_updOpt_other _ _ _ _ him, getN_updOpt_other _ _ _ _ hiq]

theorem lookupNS_insertNS_self (m : NSMap) (k : String) (v : XmlnsPrefix) :
    lookupNS (insertNS m k v) k = some v := by
  induction m with
  | nil => simp [insertNS, lookupNS]
  | cons kv rest ih =>
    obtain ⟨k', v'⟩ := kv
    by_cases hk : k' = k
    · simp [insertNS, hk, lookupNS]
    · simp [insertNS, hk, lookupNS, ih]

/-- Appending a fresh node and `AddChild`ing it under a parent whose child
list is empty: the new node points at the parent, the parent's first and
last child point at the new node. -/
theorem addChild_fresh (h0 : Heap) (v : XNode) (p : Nat)
    (hp : p < h0.length) (hfc : (getN h0 p).firstChild = none) :
    getN (addChild (h0 ++ [v]) p h0.length) h0.length = { v with parent := some p }
    ∧ getN (addChild (h0 ++ [v]) p h0.length) p
        = { getN h0 p with firstChild := some h0.length, lastChild := some h0.length } := by
  have hdp : p ≠ h0.length := Nat.ne_of_lt hp
  have hd1 : h0.length < (h0 ++ [v]).length := by
    simp only [List.length_append, List.length_cons, List.length_nil]
    omega
  have hcond : (getN (updN (h0 ++ [v]) h0.length
      (fun x => { x with parent := some p })) p).firstChild = none := by
    rw [getN_updN_other _ _ _ _ hdp.symm, getN_append_lt h0 [v] p hp]
    exact hfc
  simp only [addChild]
  rw [if_pos hcond]
  constructor
  · rw [getN_updN_other _ _ _ _ hdp, getN_updN_other _ _ _ _ hdp,
      getN_updN_self _ _ _ hd1, getN_append_len]
  · have hp1 : p < (updN (updN (h0 ++ [v]) h0.length
        (fun x => { x with parent := some p })) p
        (fun x => { x with firstChild := some h0.length })).length := by
      rw [length_updN, length_updN]
      simp only [List.length_append, List.length_cons, List.length_nil]
      omega
    have hp2 : p < (updN (h0 ++ [v]) h0.length
        (fun x => { x with parent := some p })).length := by
      rw [length_updN]
      simp only [List.length_append, List.length_cons, List.length_nil]
      omega
    rw [getN_updN_self _ _ _ hp1, getN_updN_self _ _ _ hp2,
      getN_updN_other _ _ _ _ hdp.symm, getN_append_lt h0 [v] p hp]

/-! ## Claim theorems -/

/-- C1 — Streaming yield/prune: for `<AAA><BBB>b1</BBB><BBB>b2</BBB></AAA>`
streamed with the target predicate matching every `BBB` under `AAA`, the
first `StreamParser.Read` returns the node serializing to `<BBB>b1</BBB>`
and leaves the live tree `<AAA><BBB>b1</BBB></AAA>`; the next Read's
prologue excises the yielded candidate (node 3) and its preceding
not-yet-removed siblings and restores the cursor to the candidate's former
parent (`AAA`, node 2), so the second Read returns `<BBB>b2</BBB>` and the
third Read signals end-of-stream (`io.EOF`). -/
theorem c1_streaming_yield_prune :
    readNodeId c1Read1 = some 3
    ∧ outputXML c1St1.ps.heap 3 true = "<BBB>b1</BBB>"
    ∧ outputXML c1St1.ps.heap 0 false = "<?xml version=\"1.0\"?><AAA><BBB>b1</BBB></AAA>"
    ∧ (getN c1St1.ps.heap 3).parent = some 2
    ∧ (spPrologue c1St1).ps.prev = 2
    ∧ (getN (spPrologue c1St1).ps.heap 3).parent = none
    ∧ (getN (spPrologue c1St1).ps.heap 2).firstChild = none
    ∧ (spPrologue c1St1).ps.streamNode = none
    ∧ readNodeId c1Read2 = some 5
    ∧ outputXML c1St2.ps.heap 5 true = "<BBB>b2</BBB>"
    ∧ outputXML c1St2.ps.heap 0 false = "<?xml version=\"1.0\"?><AAA><BBB>b2</BBB></AAA>"
    ∧ isEOFRead c1Read3 = true := by
  refine ⟨rfl, by decide, by decide, rfl, rfl, rfl, rfl, rfl, rfl, by decide, by decide, rfl⟩

/-- C2 — Two-phase filter reject path: in
`<AAA><CCC>c</CCC><BBB>b1</BBB><BBB>b2</BBB></AAA>` with target
`/AAA/BBB` and filter `/AAA/BBB[. != 'b1']`, when the candidate
`<BBB>b1</BBB>` (node 5) closes and the filter does not match, the
candidate is detached immediately, the cursor is restored to the saved
pre-candidate node (`CCC`, node 3), parsing continues without returning
the candidate (the read yields `<BBB>b2</BBB>`, node 7), and — unlike the
yield path — the earlier sibling noise (`<CCC>c</CCC>`, nodes 3/4) stays
in the tree. -/
theorem c2_two_phase_reject :
    (∀ (f : Heap → Bool) (s : PState) (sn pv cnt : Nat),
      s.streamNode = some sn → s.streamNodePrev = some pv →
      cnt - 1 = 0 → f s.heap = false →
      (stepEnd (some f) s cnt = StepOut.cont
          { s with
             level := s.level - 1, heap := removeNode s.heap sn,
             prev := pv, streamNode := none, streamNodePrev := none } 0
        ∧ (∀ i, i ≠ sn →
            (getN (removeNode s.heap sn) i).parent = (getN s.heap i).parent)
        ∧ (∀ i, i ≠ sn → (getN s.heap sn).parent ≠ some i →
            (getN s.heap sn).prevSibling ≠ some i →
            (getN s.heap sn).nextSibling ≠ some i →
            getN (removeNode s.heap sn) i = getN s.heap i)))
    ∧ c2RejIn.1.streamNode = some 5
    ∧ c2RejIn.1.streamNodePrev = some 3
    ∧ isCont c2RejOut = true
    ∧ c2RejState.prev = 3
    ∧ c2RejState.streamNode = none
    ∧ (getN c2RejState.heap 5).parent = none
    ∧ (getN c2RejState.heap 3).parent = some 2
    ∧ (getN c2RejState.heap 4).parent = some 3
    ∧ outputXML c2RejState.heap 0 false = "<?xml version=\"1.0\"?><AAA><CCC>c</CCC></AAA>"
    ∧ readNodeId c2Read1 = some 7
    ∧ outputXML c2St1.ps.heap 7 true = "<BBB>b2</BBB>"
    ∧ outputXML c2St1.ps.heap 0 false
        = "<?xml version=\"1.0\"?><AAA><CCC>c</CCC><BBB>b2</BBB></AAA>" := by
  refine ⟨?_, rfl, rfl, rfl, rfl, rfl, rfl, rfl, rfl, by decide, rfl, by decide, by decide⟩
  intro f s sn pv cnt hsn hpv hcnt hf
  refine ⟨?_, ?_, ?_⟩
  · simp [stepEnd, hsn, hpv, hcnt, hf]
  · intro i hin
    exact removeNode_parent_others s.heap sn i hin
  · intro i hin hip hiq him
    exact removeNode_frame s.heap sn i hin hip hiq him

/-- C2 witness: the general reject transition applied at the state
reached just before the rejected `<BBB>b1</BBB>` (node 5, saved
pre-candidate cursor node 3) closes, with the counter at 1 and the
filter evaluating to false there. -/
theorem c2_two_phase_reject_witness :
    c2RejIn.1.streamNode = some 5
    ∧ c2RejIn.1.streamNodePrev = some 3
    ∧ (1 : Nat) - 1 = 0
    ∧ fltNotB1 c2RejIn.1.heap = false
    ∧ stepEnd (some fltNotB1) c2RejIn.1 1 = StepOut.cont
        { c2RejIn.1 with
           level := c2RejIn.1.level - 1, heap := removeNode c2RejIn.1.heap 5,
           prev := 3, streamNode := none, streamNodePrev := none } 0 :=
  ⟨rfl, rfl, rfl, by decide,
   (c2_two_phase_reject.1 fltNotB1 c2RejIn.1 5 3 1 rfl rfl rfl (by decide)).1⟩


/-- C3 — CDATA vs text disambiguation: every CharData token's node is
classified as CharData exactly when the raw bytes the lookahead cache
captured for the token — inspected case-insensitively and limited to the
first nine bytes — begin with a literal CDATA opening marker (with or
without the leading `<`), and as plain Text otherwise; concretely,
`<a><![CDATA[x]]></a>` yields one CharData child of `a` with content `x`
while `<a>x</a>` yields one Text child with content `x`. -/
theorem c3_cdata_vs_text :
    (∀ (s : PState) (data cache : String),
      (getN (stepCharData s data cache).heap s.heap.length).type
        = (if cdataMarkerTest cache then NodeType.charDataNode else NodeType.textNode))
    ∧ childList (heapOfD c3CDataRun) 2 = [3]
    ∧ (getN (heapOfD c3CDataRun) 3).type = NodeType.charDataNode
    ∧ (getN (heapOfD c3CDataRun) 3).data = "x"
    ∧ (getN (heapOfD c3CDataRun) 3).parent = some 2
    ∧ (getN (heapOfD c3CDataRun) 2).data = "a"
    ∧ childList (heapOfD c3TextRun) 2 = [3]
    ∧ (getN (heapOfD c3TextRun) 3).type = NodeType.textNode
    ∧ (getN (heapOfD c3TextRun) 3).data = "x"
    ∧ (getN (heapOfD c3TextRun) 3).parent = some 2 := by
  refine ⟨?_, by decide, rfl, by decide, rfl, by decide, by decide, rfl, by decide, rfl⟩
  intro s data cache
  show (getN (attachByLevel (s.heap ++ [_]) s.prev s.level s.heap.length).1 s.heap.length).type = _
  rw [getN_type_attachByLevel, getN_append_len]
  unfold classifyCharData cdataMarkerTest
  split
  · rename_i hc
    rw [if_pos]
    exact hc
  · rename_i hc
    rw [if_neg]
    exact hc


/-- C4 counterexample: in a state at level 2 whose table binds URI `U` at
the strictly deeper recorded level 3, a start tag carrying `xmlns="U"`
does overwrite the binding (resetting it to the empty prefix at level 2),
contradicting the claim that a strictly deeper existing binding is never
overwritten by the shallower declaration. -/
theorem c4_counterexample :
    lookupNS c4State.space2pfx "U" = some ⟨"p", 3⟩
    ∧ c4State.level = 2
    ∧ c4After = some ⟨"", 2⟩ := by
  refine ⟨rfl, rfl, by decide⟩

/-- C4 amended: an attribute whose local name is exactly `xmlns` re-binds
the URI (resetting it to the empty prefix at the current depth) exactly
when the URI is unbound or the existing binding's recorded depth is
greater than or equal to the current depth; an existing binding recorded
at a strictly shallower depth is kept unchanged; an unbound URI is always
added. -/
theorem c4_default_ns_conflict_amended (m : NSMap) (lvl : Int) (uri : String) :
    lookupNS (processNSAttrs lvl m [{ localName := "xmlns", value := uri }]) uri
      = (match lookupNS m uri with
         | none => some ⟨"", lvl⟩
         | some p => if p.level ≥ lvl then some ⟨"", lvl⟩ else some p) := by
  show lookupNS (nsDeclStep lvl m { localName := "xmlns", value := uri }) uri = _
  unfold nsDeclStep
  rw [if_pos rfl]
  cases heq : lookupNS m uri with
  | none => exact lookupNS_insertNS_self m uri ⟨"", lvl⟩
  | some p =>
    show lookupNS (if p.level ≥ lvl then insertNS m uri ⟨"", lvl⟩ else m) uri
        = if p.level ≥ lvl then some ⟨"", lvl⟩ else some p
    by_cases hl : p.level ≥ lvl
    · rw [if_pos hl, if_pos hl, lookupNS_insertNS_self]
    · rw [if_neg hl, if_neg hl]
      exact heq


/-- C5 counterexample: for `<myns:child/>` the first start-element token
arrives while the depth is still 0, yet parsing does not succeed — the
strict-mode missing-namespace check fails the parse after the declaration
was synthesized — refuting the claim that parsing succeeds for every such
input. -/
theorem c5_counterexample :
    initState.level = 0
    ∧ errOfD (parseWithOptionsM true c5FailToks)
        = some "xmlquery: invalid XML document, namespace myns is missing" := by
  refine ⟨rfl, by decide⟩

/-- C5 amended: whenever a start-element token arrives while the depth is
still 0 (the cursor still on the empty document root), the parser
synthesizes a Declaration node named `xml` carrying a version attribute
`1.0`, attached as the document's first (and last) child at level 1, and
sets the depth to 1; parsing may still fail later for other reasons.  For
the declaration-less input `<AAA></AAA>` the whole parse then succeeds
with the synthesized declaration as the document's first child. -/
theorem c5_missing_declaration_amended :
    (∀ s : PState, s.level = 0 → s.prev = 0 →
      (getN s.heap 0).firstChild = none → 0 < s.heap.length →
      ((synthDecl s).level = 1
        ∧ (synthDecl s).prev = s.heap.length
        ∧ getN (synthDecl s).heap s.heap.length
            = { type := NodeType.declarationNode, data := "xml",
                attr := [{ nameLocal := "version", value := "1.0" }],
                level := 1, parent := some 0 }
        ∧ (getN (synthDecl s).heap 0).firstChild = some s.heap.length
        ∧ (getN (synthDecl s).heap 0).lastChild = some s.heap.length))
    ∧ isOkD c5OkRun = true
    ∧ (getN (heapOfD c5OkRun) 0).firstChild = some 1
    ∧ (getN (heapOfD c5OkRun) 1).type = NodeType.declarationNode
    ∧ (getN (heapOfD c5OkRun) 1).data = "xml"
    ∧ (getN (heapOfD c5OkRun) 1).attr = [{ nameLocal := "version", value := "1.0" }]
    ∧ (getN (heapOfD c5OkRun) 1).level = 1
    ∧ (getN (heapOfD c5OkRun) 1).parent = some 0 := by
  refine ⟨?_, by decide, by decide, rfl, by decide, by decide, by decide, rfl⟩
  intro s h0 hp hfc hlen
  have hsynth : synthDecl s
      = { s with
           heap := addChild (s.heap ++
             [{ type := NodeType.declarationNode, data := "xml",
                attr := [{ nameLocal := "version", value := "1.0" }], level := 1 }]) 0 s.heap.length,
           level := 1, prev := s.heap.length } := by
    rw [synthDecl, h0, hp]
    rfl
  have hfresh := addChild_fresh s.heap
    { type := NodeType.declarationNode, data := "xml",
      attr := [{ nameLocal := "version", value := "1.0" }], level := 1 } 0 hlen hfc
  rw [hsynth]
  refine ⟨rfl, rfl, ?_, ?_, ?_⟩
  · rw [hfresh.1]
  · rw [hfresh.2]
  · rw [hfresh.2]


/-- C5 witness: the general synthesis statement applied to the initial
parser state. -/
theorem c5_missing_declaration_amended_witness :
    initState.level = 0 ∧ initState.prev = 0
    ∧ (getN initState.heap 0).firstChild = none
    ∧ 0 < initState.heap.length
    ∧ (synthDecl initState).level = 1
    ∧ getN (synthDecl initState).heap initState.heap.length
        = { type := NodeType.declarationNode, data := "xml",
            attr := [{ nameLocal := "version", value := "1.0" }],
            level := 1, parent := some 0 } :=
  ⟨rfl, rfl, rfl, by decide,
    (c5_missing_declaration_amended.1 initState rfl rfl rfl (by decide)).1,
    (c5_missing_declaration_amended.1 initState rfl rfl rfl (by decide)).2.2.1⟩

/-- C6 — Strict-mode unresolved namespace: when a start-element token's
name carries a non-empty namespace URI with no binding in the scope table
(after this tag's own namespace declarations were applied), the start
step fails with the fatal `namespace ... is missing` error exactly when
the decoder is strict; in tolerant mode the step succeeds and parsing
continues. -/
theorem c6_strict_unresolved_namespace (strict : Bool)
    (tgt : Option (Heap → Bool)) (s : PState) (cnt : Nat) (ns loc : String)
    (attrs : List TokAttr) (cache : String)
    (hns : ns ≠ "")
    (hmiss : lookupNS (processNSAttrs (synthDecl s).level
        (synthDecl s).space2pfx attrs) ns = none) :
    (strict = true →
      stepStart strict tgt s cnt ns loc attrs cache
        = Except.error ("xmlquery: invalid XML document, namespace " ++ ns ++ " is missing"))
    ∧ (strict = false →
      ∃ out, stepStart strict tgt s cnt ns loc attrs cache = Except.ok out) := by
  have hb : (ns != "") = true := by simpa [bne_iff_ne] using hns
  constructor
  · intro hstrict
    subst hstrict
    simp [stepStart, hmiss, hb]
  · intro hstrict
    subst hstrict
    cases hres : stepStart false tgt s cnt ns loc attrs cache with
    | ok out => exact ⟨out, rfl⟩
    | error e => simp [stepStart, hmiss, hb] at hres

/-- C6 witness: the strict parse of `<myns:child>` fails with the missing
namespace error at the very first token; the tolerant parse of the same
token succeeds. -/
theorem c6_strict_unresolved_namespace_witness :
    ("myns" : String) ≠ ""
    ∧ lookupNS (processNSAttrs (synthDecl initState).level
        (synthDecl initState).space2pfx []) "myns" = none
    ∧ stepStart true none initState 0 "myns" "child" [] ""
        = Except.error ("xmlquery: invalid XML document, namespace " ++ "myns" ++ " is missing")
    ∧ ∃ out, stepStart false none initState 0 "myns" "child" [] "" = Except.ok out :=
  ⟨by decide, by decide,
   (c6_strict_unresolved_namespace true none initState 0 "myns" "child" [] ""
      (by decide) (by decide)).1 rfl,
   (c6_strict_unresolved_namespace false none initState 0 "myns" "child" [] ""
      (by decide) (by decide)).2 rfl⟩

/-- C7 — Post-parse validity: whenever the token-level loop runs to normal
end-of-input with final state `s`, `ParseWithOptions` returns the tree
exactly when the parsed document (the root's sibling chain) contains at
least one Element child, and otherwise returns the distinct
`invalid XML document` error. -/
theorem c7_post_parse_validity (strict : Bool) (ts : List Tok) (s : PState)
    (hrun : parseAllAux strict none none (ts.length + 1) initState ts = Except.ok s) :
    (parseWithOptionsM strict ts = Except.ok s ↔ validDoc s.heap = true)
    ∧ (validDoc s.heap = false →
        parseWithOptionsM strict ts = Except.error "xmlquery: invalid XML document")
    ∧ (validDoc s.heap = true ↔
        ∃ d ∈ chainFrom s.heap (some 0) (s.heap.length + 1),
          ∃ c ∈ childList s.heap d, (getN s.heap c).type = NodeType.elementNode) := by
  have hpwo : parseWithOptionsM strict ts
      = if validDoc s.heap then Except.ok s
        else Except.error "xmlquery: invalid XML document" := by
    unfold parseWithOptionsM
    rw [hrun]
  refine ⟨?_, ?_, ?_⟩
  · rw [hpwo]
    by_cases hv : validDoc s.heap
    · simp [hv]
    · simp [hv]
  · intro hv
    rw [hpwo, hv]
    simp
  · simp only [validDoc, List.any_eq_true, beq_iff_eq]

/-- C7 witness: a document holding only a comment parses to end-of-input
but fails the validity check; `<AAA></AAA>` passes it. -/
theorem c7_post_parse_validity_witness :
    parseAllAux true none none (c7Toks.length + 1) initState c7Toks = Except.ok c7EndState
    ∧ validDoc c7EndState.heap = false
    ∧ parseWithOptionsM true c7Toks = Except.error "xmlquery: invalid XML document" :=
  ⟨rfl, by decide,
   (c7_post_parse_validity true c7Toks c7EndState rfl).2.1 (by decide)⟩


/-- C9 — Detach semantics: detaching a node with no parent is a no-op
that leaves the heap entirely unchanged; detaching a node `n` with parent
`p` (under the sibling-chain well-formedness of a real tree) splices `n`
out — the parent's FirstChild/LastChild skip to `n`'s neighbours when
they pointed at `n`, the previous neighbour's `nextSibling` becomes `n`'s
`nextSibling`, the next neighbour's `prevSibling` becomes `n`'s
`prevSibling` — clears `n`'s Parent/PrevSibling/NextSibling, leaves `n`'s
own children attached (`firstChild`/`lastChild` untouched), and changes
no other node. -/
theorem c9_detach_semantics :
    (∀ (h : Heap) (n : Nat), (getN h n).parent = none → removeNode h n = h)
    ∧ (∀ (h : Heap) (n p : Nat),
        n < h.length → p < h.length → p ≠ n →
        (getN h n).parent = some p →
        (((getN h p).firstChild = some n) ↔ ((getN h n).prevSibling = none)) →
        (((getN h p).lastChild = some n) ↔ ((getN h n).nextSibling = none)) →
        (∀ q, (getN h n).prevSibling = some q → q < h.length ∧ q ≠ n ∧ q ≠ p) →
        (∀ m, (getN h n).nextSibling = some m → m < h.length ∧ m ≠ n ∧ m ≠ p) →
        (∀ q m, (getN h n).prevSibling = some q →
          (getN h n).nextSibling = some m → q ≠ m) →
        (getN (removeNode h n) n
            = { getN h n with parent := none, prevSibling := none, nextSibling := none }
        ∧ (getN (removeNode h n) p).firstChild
            = (if (getN h p).firstChild = some n then (getN h n).nextSibling
               else (getN h p).firstChild)
        ∧ (getN (removeNode h n) p).lastChild
            = (if (getN h p).lastChild = some n then (getN h n).prevSibling
               else (getN h p).lastChild)
        ∧ (∀ q, (getN h n).prevSibling = some q →
            (getN (removeNode h n) q).nextSibling = (getN h n).nextSibling)
        ∧ (∀ m, (getN h n).nextSibling = some m →
            (getN (removeNode h n) m).prevSibling = (getN h n).prevSibling)
        ∧ (∀ i, i ≠ n → i ≠ p → (getN h n).prevSibling ≠ some i →
            (getN h n).nextSibling ≠ some i → getN (removeNode h n) i = getN h i))) := by
  constructor
  · intro h n hnp
    unfold removeNode
    rw [hnp]
  · intro h n p hn hplen hpn hp hfc hlc hprev hnext hqm
    have hrem : removeNode h n
        = updN (if (getN h p).firstChild = some n then
            (if (getN h p).lastChild = some n then
              updN h p (fun x => { x with firstChild := none, lastChild := none })
            else
              updOpt (updN h p (fun x => { x with firstChild := (getN h n).nextSibling }))
                (getN h n).nextSibling (fun x => { x with prevSibling := none }))
          else
            (if (getN h p).lastChild = some n then
              updOpt (updN h p (fun x => { x with lastChild := (getN h n).prevSibling }))
                (getN h n).prevSibling (fun x => { x with nextSibling := none })
            else
              updOpt (updOpt h (getN h n).prevSibling
                  (fun x => { x with nextSibling := (getN h n).nextSibling }))
                (getN h n).nextSibling (fun x => { x with prevSibling := (getN h n).prevSibling })))
          n (fun x => { x with parent := none, prevSibling := none, nextSibling := none }) := by
      unfold removeNode
      rw [hp]
    by_cases h1 : (getN h p).firstChild = some n
    · by_cases h2 : (getN h p).lastChild = some n
      · -- n is the only child: both pointers cleared
        have hnpn : (getN h n).prevSibling = none := hfc.mp h1
        have hnnn : (getN h n).nextSibling = none := hlc.mp h2
        rw [hrem, if_pos h1, if_pos h2]
        have hln : n < (updN h p
            (fun x => { x with firstChild := none, lastChild := none })).length := by
          rw [length_updN]; exact hn
        refine ⟨?_, ?_, ?_, ?_, ?_, ?_⟩
        · rw [getN_updN_self _ _ _ hln, getN_updN_other _ _ _ _ hpn]
        · rw [getN_updN_other _ _ _ _ hpn.symm,
            getN_updN_self _ _ _ hplen, if_pos h1, hnnn]
        · rw [getN_updN_other _ _ _ _ hpn.symm,
            getN_updN_self _ _ _ hplen, if_pos h2, hnpn]
        · intro q hq; rw [hnpn] at hq; cases hq
        · intro m hm; rw [hnnn] at hm; cases hm
        · intro i hin hip _ _
          rw [getN_updN_other _ _ _ _ (fun hc => hin hc.symm),
            getN_updN_other _ _ _ _ (fun hc => hip hc.symm)]
      · -- n is the first but not the last child
        have hnpn : (getN h n).prevSibling = none := hfc.mp h1
        obtain ⟨m, hm⟩ : ∃ m, (getN h n).nextSibling = some m := by
          cases hnn : (getN h n).nextSibling with
          | none => exact absurd (hlc.mpr hnn) h2
          | some m => exact ⟨m, rfl⟩
        obtain ⟨hmlen, hmn, hmp⟩ := hnext m hm
        rw [hrem, if_pos h1, if_neg h2, hm]
        simp only [updOpt]
        have hlm : m < (updN h p
            (fun x => { x with firstChild := some m })).length := by
          rw [length_updN]; exact hmlen
        have hln : n < (updN (updN h p (fun x => { x with firstChild := some m }))
            m (fun x => { x with prevSibling := none })).length := by
          rw [length_updN, length_updN]; exact hn
        refine ⟨?_, ?_, ?_, ?_, ?_, ?_⟩
        · rw [getN_updN_self _ _ _ hln, getN_updN_other _ _ _ _ hmn,
            getN_updN_other _ _ _ _ hpn]
        · rw [getN_updN_other _ _ _ _ hpn.symm, getN_updN_other _ _ _ _ hmp,
            getN_updN_self _ _ _ hplen, if_pos h1]
        · rw [getN_updN_other _ _ _ _ hpn.symm, getN_updN_other _ _ _ _ hmp,
            getN_updN_self _ _ _ hplen, if_neg h2]
        · intro q hq; rw [hnpn] at hq; cases hq
        · intro m' hm'
          injection hm' with hmm
          subst hmm
          rw [hnpn, getN_updN_other _ _ _ _ hmn.symm, getN_updN_self _ _ _ hlm]
        · intro i hin hip _ hni
          have him : m ≠ i := fun hc => hni (congrArg some hc)
          rw [getN_updN_other _ _ _ _ (fun hc => hin hc.symm),
            getN_updN_other _ _ _ _ him,
            getN_updN_other _ _ _ _ (fun hc => hip hc.symm)]
    · by_cases h2 : (getN h p).lastChild = some n
      · -- n is the last but not the first child
        have hnnn : (getN h n).nextSibling = none := hlc.mp h2
        obtain ⟨q, hq⟩ : ∃ q, (getN h n).prevSibling = some q := by
          cases hnp : (getN h n).prevSibling with
          | none => exact absurd (hfc.mpr hnp) h1
          | some q => exact ⟨q, rfl⟩
        obtain ⟨hqlen, hqn, hqp⟩ := hprev q hq
        rw [hrem, if_neg h1, if_pos h2, hq]
        simp only [updOpt]
        have hlq : q < (updN h p
            (fun x => { x with lastChild := some q })).length := by
          rw [length_updN]; exact hqlen
        have hln : n < (updN (updN h p (fun x => { x with lastChild := some q }))
            q (fun x => { x with nextSibling := none })).length := by
          rw [length_updN, length_updN]; exact hn
        refine ⟨?_, ?_, ?_, ?_, ?_, ?_⟩
        · rw [getN_updN_self _ _ _ hln, getN_updN_other _ _ _ _ hqn,
            getN_updN_other _ _ _ _ hpn]
        · rw [getN_updN_other _ _ _ _ hpn.symm, getN_updN_other _ _ _ _ hqp,
            getN_updN_self _ _ _ hplen, if_neg h1]
        · rw [getN_updN_other _ _ _ _ hpn.symm, getN_updN_other _ _ _ _ hqp,
            getN_updN_self _ _ _ hplen, if_pos h2]
        · intro q' hq'
          injection hq' with hqq
          subst hqq
          rw [hnnn, getN_updN_other _ _ _ _ hqn.symm, getN_updN_self _ _ _ hlq]
        · intro m hm; rw [hnnn] at hm; cases hm
        · intro i hin hip hqi _
          have hiq : q ≠ i := fun hc => hqi (congrArg some hc)
          rw [getN_updN_other _ _ _ _ (fun hc => hin hc.symm),
            getN_updN_other _ _ _ _ hiq,
            getN_updN_other _ _ _ _ (fun hc => hip hc.symm)]
      · -- n is an interior child: both neighbours exist
        obtain ⟨q, hq⟩ : ∃ q, (getN h n).prevSibling = some q := by
          cases hnp : (getN h n).prevSibling with
          | none => exact absurd (hfc.mpr hnp) h1
          | some q => exact ⟨q, rfl⟩
        obtain ⟨m, hm⟩ : ∃ m, (getN h n).nextSibling = some m := by
          cases hnn : (getN h n).nextSibling with
          | none => exact absurd (hlc.mpr hnn) h2
          | some m => exact ⟨m, rfl⟩
        obtain ⟨hqlen, hqn, hqp⟩ := hprev q hq
        obtain ⟨hmlen, hmn, hmp⟩ := hnext m hm
        have hqm : q ≠ m := hqm q m hq hm
        rw [hrem, if_neg h1, if_neg h2, hq, hm]
        simp only [updOpt]
        have hlq : q < h.length := hqlen
        have hlm : m < (updN h q
            (fun x => { x with nextSibling := some m })).length := by
          rw [length_updN]; exact hmlen
        have hln : n < (updN (updN h q (fun x => { x with nextSibling := some m }))
            m (fun x => { x with prevSibling := some q })).length := by
          rw [length_updN, length_updN]; exact hn
        refine ⟨?_, ?_, ?_, ?_, ?_, ?_⟩
        · rw [getN_updN_self _ _ _ hln, getN_updN_other _ _ _ _ hmn,
            getN_updN_other _ _ _ _ hqn]
        · rw [getN_updN_other _ _ _ _ hpn.symm, getN_updN_other _ _ _ _ hmp,
            getN_updN_other _ _ _ _ hqp, if_neg h1]
        · rw [getN_updN_other _ _ _ _ hpn.symm, getN_updN_other _ _ _ _ hmp,
            getN_updN_other _ _ _ _ hqp, if_neg h2]
        · intro q' hq'
          injection hq' with hqq
          subst hqq
          rw [getN_updN_other _ _ _ _ hqn.symm, getN_updN_other _ _ _ _ hqm.symm,
            getN_updN_self _ _ _ hlq]
        · intro m' hm'
          injection hm' with hmm
          subst hmm
          rw [getN_updN_other _ _ _ _ hmn.symm, getN_updN_self _ _ _ hlm]
        · intro i hin hip hqi hni
          have hiq : q ≠ i := fun hc => hqi (congrArg some hc)
          have him : m ≠ i := fun hc => hni (congrArg some hc)
          rw [getN_updN_other _ _ _ _ (fun hc => hin hc.symm),
            getN_updN_other _ _ _ _ him, getN_updN_other _ _ _ _ hiq]

/-- C9 witness: a concrete three-child tree (parent 0, children 1-2-3,
node 2 with a child 4): detaching the root is a no-op and detaching node
2 splices it out exactly as characterized. -/
theorem c9_detach_semantics_witness :
    (getN c9Heap 0).parent = none
    ∧ removeNode c9Heap 0 = c9Heap
    ∧ getN (removeNode c9Heap 2) 2
        = { getN c9Heap 2 with parent := none, prevSibling := none, nextSibling := none }
    ∧ (getN (removeNode c9Heap 2) 1).nextSibling = some 3
    ∧ (getN (removeNode c9Heap 2) 3).prevSibling = some 1
    ∧ (getN (removeNode c9Heap 2) 2).firstChild = some 4 := by
  have h := c9_detach_semantics
  refine ⟨rfl, h.1 c9Heap 0 rfl, ?_, ?_, ?_, by decide⟩
  · exact (h.2 c9Heap 2 0 (by decide) (by decide) (by decide) (by decide)
      (by decide) (by decide)
      (by intro q hq; cases hq; exact ⟨by decide, by decide, by decide⟩)
      (by intro m hm; cases hm; exact ⟨by decide, by decide, by decide⟩)
      (by intro q m hq hm; cases hq; cases hm; decide)).1
  · have h4 := (h.2 c9Heap 2 0 (by decide) (by decide) (by decide) (by decide)
      (by decide) (by decide)
      (by intro q hq; cases hq; exact ⟨by decide, by decide, by decide⟩)
      (by intro m hm; cases hm; exact ⟨by decide, by decide, by decide⟩)
      (by intro q m hq hm; cases hq; cases hm; decide)).2.2.2.1 1 (by decide)
    rw [h4]; decide
  · have h5 := (h.2 c9Heap 2 0 (by decide) (by decide) (by decide) (by decide)
      (by decide) (by decide)
      (by intro q hq; cases hq; exact ⟨by decide, by decide, by decide⟩)
      (by intro m hm; cases hm; exact ⟨by decide, by decide, by decide⟩)
      (by intro q m hq hm; cases hq; cases hm; decide)).2.2.2.2.1 3 (by decide)
    rw [h5]; decide


/-! ### Reflection of the MIME matcher into its decomposition reading -/

/-- An `any` over all split points of a list is an existential over
decompositions. -/
theorem range_any_split (l : List Char) (f g : List Char → Bool) :
    ((List.range (l.length + 1)).any (fun k => f (l.take k) && g (l.drop k)) = true)
      ↔ ∃ a b, l = a ++ b ∧ f a = true ∧ g b = true := by
  rw [List.any_eq_true]
  constructor
  · rintro ⟨k, _, hfg⟩
    rw [Bool.and_eq_true] at hfg
    exact ⟨l.take k, l.drop k, (List.take_append_drop k l).symm, hfg.1, hfg.2⟩
  · rintro ⟨a, b, hab, hf, hg⟩
    refine ⟨a.length, ?_, ?_⟩
    · rw [List.mem_range, hab, List.length_append]
      omega
    · subst hab
      rw [List.take_left, List.drop_left, Bool.and_eq_true]
      exact ⟨hf, hg⟩

/-- The unanchored search succeeds exactly when some suffix matches. -/
theorem suffixesAny_iff (p : List Char → Bool) (l : List Char) :
    suffixesAny p l = true ↔ ∃ pre suf, l = pre ++ suf ∧ p suf = true := by
  induction l with
  | nil =>
    constructor
    · intro h
      exact ⟨[], [], rfl, h⟩
    · rintro ⟨pre, suf, hps, hp⟩
      obtain ⟨h1, h2⟩ := List.append_eq_nil.mp hps.symm
      subst h1; subst h2
      exact hp
  | cons c cs ih =>
    simp only [suffixesAny, Bool.or_eq_true, ih]
    constructor
    · rintro (h | ⟨pre, suf, hps, hp⟩)
      · exact ⟨[], c :: cs, rfl, h⟩
      · exact ⟨c :: pre, suf, by rw [hps]; rfl, hp⟩
    · rintro ⟨pre, suf, hps, hp⟩
      cases pre with
      | nil =>
        left
        rw [List.nil_append] at hps
        rw [← hps] at hp
        exact hp
      | cons c' pre' =>
        right
        rw [List.cons_append] at hps
        injection hps with h1 h2
        exact ⟨pre', suf, h2, hp⟩

theorem subtypeOptOK_iff (l : List Char) :
    subtypeOptOK l = true ↔ SubtypeOpt l := by
  unfold subtypeOptOK SubtypeOpt
  rw [Bool.or_eq_true, List.isEmpty_iff,
    range_any_split l (fun a => !a.isEmpty && a.all isSubtypeChar)
      (fun b => b.isEmpty || b == ['+'])]
  constructor
  · rintro (h | ⟨a, b, hab, hf, hg⟩)
    · exact Or.inl h
    · right
      rw [Bool.and_eq_true, Bool.not_eq_true', List.isEmpty_eq_false] at hf
      rw [Bool.or_eq_true, List.isEmpty_iff, beq_iff_eq] at hg
      exact ⟨a, b, hf.1, hf.2, hg, hab⟩
  · rintro (h | ⟨w, t, hw, hall, ht, hl⟩)
    · exact Or.inl h
    · right
      refine ⟨w, t, hl, ?_, ?_⟩
      · rw [Bool.and_eq_true, Bool.not_eq_true', List.isEmpty_eq_false]
        exact ⟨hw, hall⟩
      · rw [Bool.or_eq_true, List.isEmpty_iff, beq_iff_eq]
        exact ht

theorem wbXmlPre_iff (cs : List Char) :
    wbXmlPre cs = true
      ↔ ∃ wb rest, (wb = [] ∨ wb = "wb".toList)
          ∧ cs = wb ++ "xml".toList ++ rest := by
  unfold wbXmlPre
  rw [Bool.or_eq_true, List.isPrefixOf_iff_prefix, List.isPrefixOf_iff_prefix]
  constructor
  · rintro (⟨t, ht⟩ | ⟨t, ht⟩)
    · exact ⟨[], t, Or.inl rfl, by rw [← ht]; rfl⟩
    · refine ⟨"wb".toList, t, Or.inr rfl, ?_⟩
      rw [← ht]
      rfl
  · rintro ⟨wb, rest, hwb | hwb, hcs⟩
    · subst hwb
      exact Or.inl ⟨rest, by rw [hcs]; rfl⟩
    · subst hwb
      exact Or.inr ⟨rest, by rw [hcs]; rfl⟩

theorem tailMatch_iff (cs : List Char) :
    tailMatch cs = true
      ↔ ∃ sub wb rest, SubtypeOpt sub ∧ (wb = [] ∨ wb = "wb".toList)
          ∧ cs = sub ++ wb ++ "xml".toList ++ rest := by
  unfold tailMatch
  rw [range_any_split cs subtypeOptOK wbXmlPre]
  constructor
  · rintro ⟨a, b, hab, hf, hg⟩
    obtain ⟨wb, rest, hwb, hb⟩ := (wbXmlPre_iff b).mp hg
    refine ⟨a, wb, rest, (subtypeOptOK_iff a).mp hf, hwb, ?_⟩
    rw [hab, hb]
    simp [List.append_assoc]
  · rintro ⟨sub, wb, rest, hsub, hwb, hcs⟩
    refine ⟨sub, wb ++ "xml".toList ++ rest, ?_, (subtypeOptOK_iff sub).mpr hsub, ?_⟩
    · rw [hcs]
      simp [List.append_assoc]
    · exact (wbXmlPre_iff _).mpr ⟨wb, rest, hwb, rfl⟩

theorem famMatchAt_iff (cs : List Char) :
    famMatchAt cs = true
      ↔ (∃ fam sub wb rest, fam ∈ bigFamilies ∧ SubtypeOpt sub
            ∧ (wb = [] ∨ wb = "wb".toList)
            ∧ cs = fam ++ sub ++ wb ++ "xml".toList ++ rest)
        ∨ (∃ wb rest, (wb = [] ∨ wb = "wb".toList)
            ∧ cs = "text/".toList ++ wb ++ "xml".toList ++ rest) := by
  unfold famMatchAt
  rw [Bool.or_eq_true, List.any_eq_true]
  constructor
  · rintro (⟨fam, hfam, hft⟩ | hpt)
    · rw [Bool.and_eq_true, List.isPrefixOf_iff_prefix] at hft
      obtain ⟨⟨t, ht⟩, htail2⟩ := hft
      left
      have hdrop : cs.drop fam.length = t := by
        rw [← ht, List.drop_left]
      rw [hdrop] at htail2
      obtain ⟨sub, wb, rest, hsub, hwb, hts⟩ := (tailMatch_iff t).mp htail2
      refine ⟨fam, sub, wb, rest, hfam, hsub, hwb, ?_⟩
      rw [← ht, hts]
      simp [List.append_assoc]
    · rw [Bool.and_eq_true, List.isPrefixOf_iff_prefix] at hpt
      obtain ⟨⟨t, ht⟩, hwb⟩ := hpt
      right
      have hdrop : cs.drop 5 = t := by
        rw [← ht]
        rfl
      rw [hdrop] at hwb
      obtain ⟨wb, rest, hw, hts⟩ := (wbXmlPre_iff t).mp hwb
      refine ⟨wb, rest, hw, ?_⟩
      rw [← ht, hts]
      simp [List.append_assoc]
  · rintro (⟨fam, sub, wb, rest, hfam, hsub, hwb, hcs⟩ | ⟨wb, rest, hwb, hcs⟩)
    · left
      refine ⟨fam, hfam, ?_⟩
      rw [Bool.and_eq_true, List.isPrefixOf_iff_prefix]
      subst hcs
      refine ⟨?_, ?_⟩
      · simp [List.append_assoc]
      · have hdrop : (fam ++ sub ++ wb ++ "xml".toList ++ rest).drop fam.length
            = sub ++ wb ++ "xml".toList ++ rest := by
          simp [List.append_assoc]
        rw [hdrop]
        exact (tailMatch_iff _).mpr ⟨sub, wb, rest, hsub, hwb, rfl⟩
    · right
      rw [Bool.and_eq_true, List.isPrefixOf_iff_prefix]
      subst hcs
      refine ⟨?_, ?_⟩
      · exact ⟨wb ++ ("xml".toList ++ rest), by simp [List.append_assoc]⟩
      · have hdrop : ("text/".toList ++ wb ++ "xml".toList ++ rest).drop 5
            = wb ++ "xml".toList ++ rest := by
          simp [List.append_assoc]
        rw [hdrop]
        exact (wbXmlPre_iff _).mpr ⟨wb, rest, hwb, rfl⟩

/-- The executable MIME matcher agrees with the decomposition reading. -/
theorem xmlMIMEMatch_iff (ct : String) :
    xmlMIMEMatch ct = true ↔ XMLFamilyMatch ct := by
  unfold xmlMIMEMatch XMLFamilyMatch
  rw [suffixesAny_iff]
  constructor
  · rintro ⟨pre, suf, hps, hfam⟩
    rcases (famMatchAt_iff suf).mp hfam with
      ⟨fam, sub, wb, rest, hf, hs, hw, hsuf⟩ | ⟨wb, rest, hw, hsuf⟩
    · left
      refine ⟨pre, fam, sub, wb, rest, hf, hs, hw, ?_⟩
      rw [hps, hsuf]
      simp [List.append_assoc]
    · right
      refine ⟨pre, wb, rest, hw, ?_⟩
      rw [hps, hsuf]
      simp [List.append_assoc]
  · rintro (⟨pre, fam, sub, wb, rest, hf, hs, hw, hct⟩ | ⟨pre, wb, rest, hw, hct⟩)
    · refine ⟨pre, fam ++ sub ++ wb ++ "xml".toList ++ rest, ?_, ?_⟩
      · rw [hct]
        simp [List.append_assoc]
      · exact (famMatchAt_iff _).mpr (Or.inl ⟨fam, sub, wb, rest, hf, hs, hw, rfl⟩)
    · refine ⟨pre, "text/".toList ++ wb ++ "xml".toList ++ rest, ?_, ?_⟩
      · rw [hct]
        simp [List.append_assoc]
      · exact (famMatchAt_iff _).mpr (Or.inr ⟨wb, rest, hw, rfl⟩)

/-- C8 counterexample: `text/html` (from the library's own failure tests)
is rejected by `LoadURL` with the `invalid XML document(text/html)` error
even though the claim's characterization ("any text/... type") accepts
it; conversely `application/ATXML` (from the success tests) is accepted
although its subtype neither ends in `+xml` nor equals `xml`. -/
theorem c8_counterexample :
    xmlMIMEMatch "text/html" = false
    ∧ errOfD (loadURLM "text/html" []) = some "invalid XML document(text/html)"
    ∧ xmlMIMEMatch "application/ATXML" = true := by
  refine ⟨by decide, by decide, by decide⟩

/-- C8 amended: `LoadURL` proceeds to parse the body exactly when the
Content-Type, lowercased, contains an occurrence of one of
`application/`, `image/`, `message/`, `model/` followed by an optional
run of word, dot or dash characters with an optional trailing `+`, then
an optional `wb`, then `xml` — or an occurrence of `text/` followed
directly by an optional `wb` and then `xml`; otherwise it fails with the
`invalid XML document(<content-type>)` error carrying the offending
content-type string. -/
theorem c8_content_type_gate_amended (ct : String) (body : List Tok) :
    (XMLFamilyMatch ct → loadURLM ct body = parseWithOptionsM true body)
    ∧ (¬ XMLFamilyMatch ct →
        loadURLM ct body = Except.error ("invalid XML document(" ++ ct ++ ")")) := by
  constructor
  · intro hm
    unfold loadURLM
    rw [if_pos ((xmlMIMEMatch_iff ct).mpr hm)]
  · intro hm
    unfold loadURLM
    rw [if_neg (fun hc => hm ((xmlMIMEMatch_iff ct).mp hc))]

/-- C8 witness: the amended gate applied at `application/xml` (accepted,
proceeds to parse) and at `application/pdf` (rejected with the carried
content type). -/
theorem c8_content_type_gate_amended_witness :
    XMLFamilyMatch "application/xml"
    ∧ loadURLM "application/xml" [] = parseWithOptionsM true []
    ∧ ¬ XMLFamilyMatch "application/pdf"
    ∧ loadURLM "application/pdf" []
        = Except.error ("invalid XML document(" ++ "application/pdf" ++ ")") := by
  have hyes : XMLFamilyMatch "application/xml" :=
    Or.inl ⟨[], "application/".toList, [], [], [],
      by decide, Or.inl rfl, Or.inl rfl, by decide⟩
  have hno : ¬ XMLFamilyMatch "application/pdf" := by
    intro hc
    have := (xmlMIMEMatch_iff "application/pdf").mpr hc
    exact absurd this (by decide)
  exact ⟨hyes, (c8_content_type_gate_amended "application/xml" []).1 hyes,
    hno, (c8_content_type_gate_amended "application/pdf" []).2 hno⟩


/-! ### The selector cache claim -/

theorem str_append_cancel (a b c : String) (h : a ++ c = b ++ c) : a = b := by
  cases a with | mk la =>
  cases b with | mk lb =>
  cases c with | mk lc =>
  have h2 : la ++ lc = lb ++ lc := congrArg String.data h
  exact congrArg String.mk (List.append_cancel_right h2)

/-- `lruAdd` preserves the cache invariant when fed a successful
compilation. -/
theorem cacheInv_lruAdd {Expr : Type} (compile : String → Except String Expr)
    (optsRepr : String) (c : LRUCache Expr) (expr : String) (v : Expr)
    (hc : ∀ kv ∈ c.entries, ∃ e, kv.1 = e ++ optsRepr ∧ compile e = Except.ok kv.2)
    (hv : compile expr = Except.ok v) :
    ∀ kv ∈ (lruAdd c (expr ++ optsRepr) v).entries,
      ∃ e, kv.1 = e ++ optsRepr ∧ compile e = Except.ok kv.2 := by
  intro kv hkv
  simp only [lruAdd] at hkv
  have hsub : kv ∈ (expr ++ optsRepr, v)
      :: c.entries.filter (fun kv2 => kv2.1 != (expr ++ optsRepr)) := by
    split at hkv
    · exact (List.dropLast_sublist _).subset hkv
    · exact hkv
  rcases List.mem_cons.mp hsub with hkv1 | hkv2
  · subst hkv1
    exact ⟨expr, rfl, hv⟩
  · exact hc kv (List.mem_of_mem_filter hkv2)

/-- C10 — Compiled-query cache transparency: under the cache invariant
(every stored entry is the successful compilation of its key's
expression), `getQuery` returns exactly what direct compilation returns —
so enabling or disabling the LRU cache never changes the success/failure
outcome nor the returned expression — the invariant is preserved, and a
failed compilation leaves the stored entries untouched (in particular it
is never stored). -/
theorem c10_cache_transparency {Expr : Type}
    (compile : String → Except String Expr) (optsRepr : String)
    (disable : Bool) (maxEntries : Int) (st : Option (LRUCache Expr))
    (expr : String) (hinv : CacheInv compile optsRepr st) :
    (getQueryM compile optsRepr disable maxEntries st expr).1 = compile expr
    ∧ CacheInv compile optsRepr
        (getQueryM compile optsRepr disable maxEntries st expr).2
    ∧ (∀ e, compile expr = Except.error e →
        entriesOf (getQueryM compile optsRepr disable maxEntries st expr).2
          = entriesOf st) := by
  simp only [getQueryM]
  split
  · exact ⟨rfl, hinv, fun e _ => rfl⟩
  · cases st with
    | none =>
      simp only [lruGet, entriesOf, List.find?_nil]
      cases hcomp : compile expr with
      | error e =>
        refine ⟨rfl, ?_, fun e' _ => rfl⟩
        intro kv hkv
        simp [entriesOf] at hkv
      | ok v =>
        refine ⟨rfl, ?_, fun e' he' => ?_⟩
        · intro kv hkv
          exact cacheInv_lruAdd compile optsRepr ⟨maxEntries.toNat, []⟩ expr v
            (by intro kv2 hkv2; simp at hkv2) hcomp kv hkv
        · cases he'
    | some c =>
      simp only [lruGet, entriesOf]
      cases hfind : c.entries.find? (fun kv => kv.1 == (expr ++ optsRepr)) with
      | none =>
        cases hcomp : compile expr with
        | error e => exact ⟨rfl, hinv, fun e' _ => rfl⟩
        | ok v =>
          refine ⟨rfl, ?_, fun e' he' => ?_⟩
          · intro kv hkv
            exact cacheInv_lruAdd compile optsRepr c expr v
              (fun kv2 hkv2 => hinv kv2 hkv2) hcomp kv hkv
          · cases he'
      | some kv0 =>
        have hp := List.find?_some hfind
        have hkey : kv0.1 = expr ++ optsRepr := by simpa using hp
        have hmem : kv0 ∈ c.entries := List.mem_of_find?_eq_some hfind
        obtain ⟨e0, hk0, he0⟩ := hinv kv0 hmem
        have he0x : e0 = expr := str_append_cancel e0 expr optsRepr (by rw [← hk0, hkey])
        subst he0x
        refine ⟨by rw [he0], ?_, fun e' he' => ?_⟩
        · intro kv hkv
          rcases List.mem_cons.mp hkv with hkv1 | hkv2
          · subst hkv1
            exact ⟨e0, rfl, he0⟩
          · exact hinv kv (List.mem_of_mem_filter hkv2)
        · rw [he0] at he'
          cases he'

/-- C10 witness: the transparency statement applied to a concrete
compiler, an empty cache, and both a compilable and an uncompilable
expression, with the cache both enabled and disabled. -/
theorem c10_cache_transparency_witness :
    CacheInv c10compile "#opts" (none : Option (LRUCache Nat))
    ∧ (getQueryM c10compile "#opts" false 50 none "q").1 = c10compile "q"
    ∧ (getQueryM c10compile "#opts" true 50 none "q").1 = c10compile "q"
    ∧ (getQueryM c10compile "#opts" false 50 none "bad").1 = c10compile "bad"
    ∧ entriesOf (getQueryM c10compile "#opts" false 50 none "bad").2
        = entriesOf (none : Option (LRUCache Nat)) := by
  have hinv : CacheInv c10compile "#opts" (none : Option (LRUCache Nat)) := by
    intro kv hkv
    simp [entriesOf] at hkv
  refine ⟨hinv,
    (c10_cache_transparency c10compile "#opts" false 50 none "q" hinv).1,
    (c10_cache_transparency c10compile "#opts" true 50 none "q" hinv).1,
    (c10_cache_transparency c10compile "#opts" false 50 none "bad" hinv).1,
    (c10_cache_transparency c10compile "#opts" false 50 none "bad" hinv).2.2
      "compile error" rfl⟩

end Xmlquery
